import Mathlib

/-!
Verification development for the mongo-rust-driver wrapper.

The development shallowly embeds the components the specification covers:
the BSON value bridge (src/bsonc.rs together with the bson codec it calls,
modelled from the spec since the codec crate is an external dependency),
the plain cursor protocol, the tailing cursor and the batch/getMore
pagination logic (src/cursor.rs).

Machine bytes are Nat values below 256; machine integers are Int with
explicit two's-complement wrapping at the stated width.  Strings are byte
lists, as in the wire format.  The native driver (libmongoc) is an abstract
collaborator: it is modelled as an oracle state that answers the calls the
cursor code makes (more / next / error / is_alive), and theorems quantify
over, or fix, its behaviour as each claim requires.
-/

namespace MongoRust

/-! ## Error taxonomy (src/error.rs; decoder errors modelled from the spec) -/

/-- Modelled from the spec: the decoding error taxonomy of the bson codec
(the bson crate is an external dependency, not part of this repository).
Strict decode fails with invalidUtf8 on malformed string bytes; an unknown
type tag fails with unsupportedType. -/
inductive DecoderError where
  | invalidUtf8
  | unsupportedType (tag : Nat)
  | unexpectedEof
  | badLength
deriving DecidableEq, Repr

/-- Value access errors of the bson crate (only notPresent is used by
batch_to_array in src/cursor.rs). -/
inductive ValueAccessError where
  | notPresent
  | unexpectedType
deriving DecidableEq, Repr

/-- Driver-side error (BsoncError in src/error.rs): domain, code, message. -/
structure BsoncError where
  domain : Nat
  code : Nat
  message : List Nat
deriving DecidableEq, Repr

/-- MongoError from src/error.rs. -/
inductive MongoError where
  | bsonc (e : BsoncError)
  | decoder (e : DecoderError)
  | encoder
  | valueAccessError (e : ValueAccessError)
  | invalidParams
deriving DecidableEq, Repr

/-- Result type of the crate: Result of T is Except MongoError T. -/
abbrev MResult (α : Type) := Except MongoError α

/-! ## BSON value model

Modelled from the spec: the discriminated-union value type of the bson
crate (document, array, int32/int64, double, string, binary, object-id,
boolean, datetime, null).  A Double carries its 8-byte IEEE-754 bit
pattern as a Nat below 2^64 (bit-exact round-tripping is what the code
guarantees; no floating-point arithmetic is modelled).  A Document is an
ordered sequence of key/value pairs; real documents have unique keys
(LinkedHashMap), which the round-trip theorem does not even need. -/

mutual

inductive BsonV where
  | double (bits : Nat)
  | string (s : List Nat)
  | document (d : BsonDoc)
  | array (xs : BsonArr)
  | binary (sub : Nat) (data : List Nat)
  | objectId (b : List Nat)
  | boolean (b : Bool)
  | dateTime (ms : Int)
  | null
  | int32 (z : Int)
  | int64 (z : Int)

inductive BsonDoc where
  | nil
  | cons (k : List Nat) (v : BsonV) (rest : BsonDoc)

inductive BsonArr where
  | nil
  | cons (v : BsonV) (rest : BsonArr)

end

/-- First-occurrence lookup of a key in a document (Document::get). -/
def BsonDoc.get : BsonDoc → List Nat → Option BsonV
  | .nil, _ => none
  | .cons k v rest, key => if k = key then some v else rest.get key

/-- Number of key/value pairs in a document. -/
def BsonDoc.size : BsonDoc → Nat
  | .nil => 0
  | .cons _ _ rest => rest.size + 1

/-- Insert semantics of Document::insert_bson (LinkedHashMap): replace the
value in place when the key exists, append otherwise. -/
def BsonDoc.insert_bson : BsonDoc → List Nat → BsonV → BsonDoc
  | .nil, key, val => .cons key val .nil
  | .cons k v rest, key, val =>
    if k = key then .cons k val rest else .cons k v (rest.insert_bson key val)

/-! ## Little-endian integers -/

/-- Little-endian byte encoding of a natural number at the given width. -/
def leBytes : Nat → Nat → List Nat
  | 0, _ => []
  | w + 1, n => (n % 256) :: leBytes w (n / 256)

/-- Read a little-endian byte list back as a natural number. -/
def fromLE : List Nat → Nat
  | [] => 0
  | b :: rest => b + 256 * fromLE rest

/-- Reinterpret an unsigned w-bit value as a signed (two's complement)
integer. -/
def toSigned (w : Nat) (n : Nat) : Int :=
  if n < 2 ^ (w - 1) then (n : Int) else (n : Int) - 2 ^ w

/-- Encode a signed 32-bit integer in little-endian two's complement. -/
def encI32 (z : Int) : List Nat := leBytes 4 (z % (2 ^ 32 : Int)).toNat

/-- Encode a signed 64-bit integer in little-endian two's complement. -/
def encI64 (z : Int) : List Nat := leBytes 8 (z % (2 ^ 64 : Int)).toNat

/-! ## UTF-8 validation and lossy transform

Modelled from the spec: strict decode fails on malformed string bytes,
lossy decode substitutes the Unicode replacement character (UTF-8 bytes
EF BF BD) for invalid byte sequences, per the semantics of Rust's
String::from_utf8 / from_utf8_lossy. -/

/-- Continuation byte check. -/
def utf8Cont (b : Nat) : Bool := 0x80 ≤ b && b ≤ 0xBF

/-- Second-byte check for a 3-byte lead. -/
def utf8Cont3 (lead b2 : Nat) : Bool :=
  if lead = 0xE0 then 0xA0 ≤ b2 && b2 ≤ 0xBF
  else if lead = 0xED then 0x80 ≤ b2 && b2 ≤ 0x9F
  else utf8Cont b2

/-- Second-byte check for a 4-byte lead. -/
def utf8Cont4 (lead b2 : Nat) : Bool :=
  if lead = 0xF0 then 0x90 ≤ b2 && b2 ≤ 0xBF
  else if lead = 0xF4 then 0x80 ≤ b2 && b2 ≤ 0x8F
  else utf8Cont b2

/-- Validity of a byte list as UTF-8. -/
def utf8Valid : List Nat → Bool
  | [] => true
  | b :: rest =>
    if b < 0x80 then utf8Valid rest
    else if b < 0xC2 then false
    else if b ≤ 0xDF then
      match rest with
      | b2 :: rest2 => utf8Cont b2 && utf8Valid rest2
      | [] => false
    else if b ≤ 0xEF then
      match rest with
      | b2 :: b3 :: rest3 => utf8Cont3 b b2 && utf8Cont b3 && utf8Valid rest3
      | _ => false
    else if b ≤ 0xF4 then
      match rest with
      | b2 :: b3 :: b4 :: rest4 =>
        utf8Cont4 b b2 && utf8Cont b3 && utf8Cont b4 && utf8Valid rest4
      | _ => false
    else false

/-- UTF-8 bytes of the Unicode replacement character U+FFFD. -/
def replChar : List Nat := [0xEF, 0xBF, 0xBD]

/-- Lossy UTF-8 transform: each maximal invalid subpart is replaced by one
replacement character, valid sequences are kept. -/
def utf8Lossy : List Nat → List Nat
  | [] => []
  | b :: rest =>
    if b < 0x80 then b :: utf8Lossy rest
    else if b < 0xC2 then replChar ++ utf8Lossy rest
    else if b ≤ 0xDF then
      match rest with
      | b2 :: rest2 =>
        if utf8Cont b2 then b :: b2 :: utf8Lossy rest2
        else replChar ++ utf8Lossy (b2 :: rest2)
      | [] => replChar
    else if b ≤ 0xEF then
      match rest with
      | b2 :: b3 :: rest3 =>
        if utf8Cont3 b b2 then
          if utf8Cont b3 then b :: b2 :: b3 :: utf8Lossy rest3
          else replChar ++ utf8Lossy (b3 :: rest3)
        else replChar ++ utf8Lossy (b2 :: b3 :: rest3)
      | [b2] => if utf8Cont3 b b2 then replChar else replChar ++ utf8Lossy [b2]
      | [] => replChar
    else if b ≤ 0xF4 then
      match rest with
      | b2 :: b3 :: b4 :: rest4 =>
        if utf8Cont4 b b2 then
          if utf8Cont b3 then
            if utf8Cont b4 then b :: b2 :: b3 :: b4 :: utf8Lossy rest4
            else replChar ++ utf8Lossy (b4 :: rest4)
          else replChar ++ utf8Lossy (b3 :: b4 :: rest4)
        else replChar ++ utf8Lossy (b2 :: b3 :: b4 :: rest4)
      | [b2, b3] =>
        if utf8Cont4 b b2 then
          if utf8Cont b3 then replChar else replChar ++ utf8Lossy [b3]
        else replChar ++ utf8Lossy [b2, b3]
      | [b2] => if utf8Cont4 b b2 then replChar else replChar ++ utf8Lossy [b2]
      | [] => replChar
    else replChar ++ utf8Lossy rest

/-! ## Encoder

Modelled from the spec (section 4.2 and the wire format of section 6):
walk the pairs in insertion order, appending a type tag, the key as a
NUL-terminated string and the type-specific payload; nested documents and
arrays are embedded recursively with their own length prefix; arrays are
documents keyed by decimal indices. -/

def tagOf : BsonV → Nat
  | .double _ => 0x01
  | .string _ => 0x02
  | .document _ => 0x03
  | .array _ => 0x04
  | .binary _ _ => 0x05
  | .objectId _ => 0x07
  | .boolean _ => 0x08
  | .dateTime _ => 0x09
  | .null => 0x0A
  | .int32 _ => 0x10
  | .int64 _ => 0x12

/-- Decimal digit bytes of a natural number (most significant first). -/
def decimalDigits : Nat → Nat → List Nat
  | 0, _ => []
  | f + 1, n => if n < 10 then [48 + n] else decimalDigits f (n / 10) ++ [48 + n % 10]

/-- Array index as a decimal key. -/
def natKey (n : Nat) : List Nat := decimalDigits (n + 1) n

mutual

def encValue : BsonV → List Nat
  | .double bits => leBytes 8 bits
  | .string s => encI32 ((s.length : Int) + 1) ++ s ++ [0]
  | .document d =>
    encI32 (((encElems d).length : Int) + 5) ++ encElems d ++ [0]
  | .array xs =>
    encI32 (((encArrElems xs 0).length : Int) + 5) ++ encArrElems xs 0 ++ [0]
  | .binary sub data => encI32 (data.length : Int) ++ [sub % 256] ++ data
  | .objectId b => b
  | .boolean b => [if b then 1 else 0]
  | .dateTime ms => encI64 ms
  | .null => []
  | .int32 z => encI32 z
  | .int64 z => encI64 z

def encElems : BsonDoc → List Nat
  | .nil => []
  | .cons k v rest => tagOf v :: (k ++ [0]) ++ encValue v ++ encElems rest

def encArrElems : BsonArr → Nat → List Nat
  | .nil, _ => []
  | .cons v rest, i => tagOf v :: (natKey i ++ [0]) ++ encValue v ++ encArrElems rest (i + 1)

end

/-- Encode a whole document: length prefix, element list, terminator. -/
def encode_document (d : BsonDoc) : List Nat :=
  encI32 (((encElems d).length : Int) + 5) ++ encElems d ++ [0]

/-! ## Well-formedness

A document a Rust caller can build from the supported value variants:
byte components are genuine bytes, strings and keys are valid UTF-8 (Rust
String), keys contain no NUL (cstring), integers are in the range of
their machine type, an ObjectId is exactly 12 bytes, and lengths fit the
i32 length prefixes. -/

/-- All entries are bytes. -/
def allBytes (l : List Nat) : Bool := l.all (· < 256)

/-- Key of a document entry: bytes, no NUL, valid UTF-8. -/
def keyOk (k : List Nat) : Bool := allBytes k && k.all (· ≠ 0) && utf8Valid k

mutual

def wfV : BsonV → Bool
  | .double bits => bits < 2 ^ 64
  | .string s => allBytes s && utf8Valid s && s.length + 1 < 2 ^ 31
  | .document d => wfD d
  | .array xs => wfA xs
  | .binary sub data => sub < 256 && allBytes data && data.length < 2 ^ 31
  | .objectId b => b.length = 12 && allBytes b
  | .boolean _ => true
  | .dateTime ms => -(2 ^ 63) ≤ ms && ms < 2 ^ 63
  | .null => true
  | .int32 z => -(2 ^ 31) ≤ z && z < 2 ^ 31
  | .int64 z => -(2 ^ 63) ≤ z && z < 2 ^ 63

def wfD : BsonDoc → Bool
  | .nil => true
  | .cons k v rest => keyOk k && wfV v && wfD rest

def wfA : BsonArr → Bool
  | .nil => true
  | .cons v rest => wfV v && wfA rest

end

/-! ## Decoder

Modelled from the spec (section 4.3 and the wire format of section 6):
read the 4-byte length prefix, then iterate fields front-to-back, each
field a type tag, a NUL-terminated key and a tag-dispatched payload,
recursing into nested documents and arrays; strict mode fails with
invalidUtf8 on malformed string bytes, lossy mode substitutes replacement
characters; an unknown tag fails the whole decode with unsupportedType.
The parser is written against a recursion budget (fuel); the top level
passes the input length plus one, which every input stays below because
each recursive step consumes at least one byte. -/

inductive Utf8Mode where
  | strict
  | lossy
deriving DecidableEq, Repr

/-- Read one byte. -/
def readU8 : List Nat → Except DecoderError (Nat × List Nat)
  | [] => .error .unexpectedEof
  | b :: rest => .ok (b, rest)

/-- Read a fixed number of bytes. -/
def readBytes (n : Nat) (bs : List Nat) : Except DecoderError (List Nat × List Nat) :=
  if bs.length < n then .error .unexpectedEof else .ok (bs.take n, bs.drop n)

/-- Read a NUL-terminated key. -/
def readCString : List Nat → Except DecoderError (List Nat × List Nat)
  | [] => .error .unexpectedEof
  | b :: rest =>
    if b = 0 then .ok ([], rest)
    else
      match readCString rest with
      | .ok (k, r) => .ok (b :: k, r)
      | .error e => .error e

/-- Read a little-endian signed 32-bit integer. -/
def readI32 (bs : List Nat) : Except DecoderError (Int × List Nat) :=
  match readBytes 4 bs with
  | .ok (chunk, rest) => .ok (toSigned 32 (fromLE chunk), rest)
  | .error e => .error e

/-- Read a little-endian signed 64-bit integer. -/
def readI64 (bs : List Nat) : Except DecoderError (Int × List Nat) :=
  match readBytes 8 bs with
  | .ok (chunk, rest) => .ok (toSigned 64 (fromLE chunk), rest)
  | .error e => .error e

/-- Read a string payload: i32 length (content plus NUL), content bytes,
one trailing byte; strict mode validates UTF-8, lossy mode substitutes
replacement characters and never fails on this condition. -/
def readString (mode : Utf8Mode) (bs : List Nat) : Except DecoderError (List Nat × List Nat) :=
  match readI32 bs with
  | .error e => .error e
  | .ok (len, bs1) =>
    if len < 1 then .error .badLength
    else
      match readBytes (len - 1).toNat bs1 with
      | .error e => .error e
      | .ok (content, bs2) =>
        match readU8 bs2 with
        | .error e => .error e
        | .ok (_, bs3) =>
          match mode with
          | .strict =>
            if utf8Valid content then .ok (content, bs3) else .error .invalidUtf8
          | .lossy => .ok (utf8Lossy content, bs3)

mutual

def decValue (mode : Utf8Mode) : Nat → Nat → List Nat → Except DecoderError (BsonV × List Nat)
  | 0, _, _ => .error .unexpectedEof
  | fuel + 1, tag, bs =>
    if tag = 0x01 then
      match readBytes 8 bs with
      | .ok (chunk, rest) => .ok (.double (fromLE chunk), rest)
      | .error e => .error e
    else if tag = 0x02 then
      match readString mode bs with
      | .ok (s, rest) => .ok (.string s, rest)
      | .error e => .error e
    else if tag = 0x03 then
      match readI32 bs with
      | .ok (_, bs1) =>
        match decElems mode fuel bs1 with
        | .ok (d, rest) => .ok (.document d, rest)
        | .error e => .error e
      | .error e => .error e
    else if tag = 0x04 then
      match readI32 bs with
      | .ok (_, bs1) =>
        match decArrElems mode fuel bs1 with
        | .ok (xs, rest) => .ok (.array xs, rest)
        | .error e => .error e
      | .error e => .error e
    else if tag = 0x05 then
      match readI32 bs with
      | .error e => .error e
      | .ok (len, bs1) =>
        if len < 0 then .error .badLength
        else
          match readU8 bs1 with
          | .error e => .error e
          | .ok (sub, bs2) =>
            match readBytes len.toNat bs2 with
            | .ok (data, rest) => .ok (.binary sub data, rest)
            | .error e => .error e
    else if tag = 0x07 then
      match readBytes 12 bs with
      | .ok (chunk, rest) => .ok (.objectId chunk, rest)
      | .error e => .error e
    else if tag = 0x08 then
      match readU8 bs with
      | .ok (b, rest) => .ok (.boolean (b ≠ 0), rest)
      | .error e => .error e
    else if tag = 0x09 then
      match readI64 bs with
      | .ok (z, rest) => .ok (.dateTime z, rest)
      | .error e => .error e
    else if tag = 0x0A then .ok (.null, bs)
    else if tag = 0x10 then
      match readI32 bs with
      | .ok (z, rest) => .ok (.int32 z, rest)
      | .error e => .error e
    else if tag = 0x12 then
      match readI64 bs with
      | .ok (z, rest) => .ok (.int64 z, rest)
      | .error e => .error e
    else .error (.unsupportedType tag)

def decElems (mode : Utf8Mode) : Nat → List Nat → Except DecoderError (BsonDoc × List Nat)
  | 0, _ => .error .unexpectedEof
  | fuel + 1, bs =>
    match readU8 bs with
    | .error e => .error e
    | .ok (tag, bs1) =>
      if tag = 0 then .ok (.nil, bs1)
      else
        match readCString bs1 with
        | .error e => .error e
        | .ok (k, bs2) =>
          match decValue mode fuel tag bs2 with
          | .error e => .error e
          | .ok (v, bs3) =>
            match decElems mode fuel bs3 with
            | .error e => .error e
            | .ok (d, rest) => .ok (.cons k v d, rest)

def decArrElems (mode : Utf8Mode) : Nat → List Nat → Except DecoderError (BsonArr × List Nat)
  | 0, _ => .error .unexpectedEof
  | fuel + 1, bs =>
    match readU8 bs with
    | .error e => .error e
    | .ok (tag, bs1) =>
      if tag = 0 then .ok (.nil, bs1)
      else
        match readCString bs1 with
        | .error e => .error e
        | .ok (_, bs2) =>
          match decValue mode fuel tag bs2 with
          | .error e => .error e
          | .ok (v, bs3) =>
            match decArrElems mode fuel bs3 with
            | .error e => .error e
            | .ok (xs, rest) => .ok (.cons v xs, rest)

end

/-- Decode a whole document buffer: length prefix then elements up to the
terminator; trailing bytes after the terminator are ignored, as with a
reader. -/
def decode_document (mode : Utf8Mode) (bs : List Nat) : Except DecoderError BsonDoc :=
  match readI32 bs with
  | .error e => .error e
  | .ok (_, rest) =>
    match decElems mode (bs.length + 1) rest with
    | .error e => .error e
    | .ok (d, _) => .ok d

/-! ## The Bsonc bridge (src/bsonc.rs)

A Bsonc owns the encoded byte buffer of one document.  from_document
encodes with the bson codec and hands the bytes to the native side
(bson_new_from_data, which accepts any buffer the codec produces);
as_document and as_document_utf8_lossy read the bytes back through the
strict and lossy decoders. -/

structure Bsonc where
  data : List Nat
deriving DecidableEq, Repr

def Bsonc.from_document (d : BsonDoc) : MResult Bsonc :=
  .ok ⟨encode_document d⟩

def Bsonc.as_document (b : Bsonc) : MResult BsonDoc :=
  match decode_document .strict b.data with
  | .ok d => .ok d
  | .error e => .error (.decoder e)

def Bsonc.as_document_utf8_lossy (b : Bsonc) : MResult BsonDoc :=
  match decode_document .lossy b.data with
  | .ok d => .ok d
  | .error e => .error (.decoder e)

/-! ## Round-trip lemmas for the readers -/

theorem leBytes_length (w n : Nat) : (leBytes w n).length = w := by
  induction w generalizing n with
  | zero => rfl
  | succ w ih => simp [leBytes, ih]

theorem fromLE_leBytes (w n : Nat) (h : n < 2 ^ (8 * w)) :
    fromLE (leBytes w n) = n := by
  induction w generalizing n with
  | zero =>
    simp [leBytes, fromLE]
    omega
  | succ w ih =>
    have hdiv : n / 256 < 2 ^ (8 * w) := by
      have h2 : 2 ^ (8 * (w + 1)) = 2 ^ (8 * w) * 256 := by ring
      rw [Nat.div_lt_iff_lt_mul (by norm_num)]
      omega
    simp [leBytes, fromLE, ih (n / 256) hdiv]
    omega

theorem encI32_length (z : Int) : (encI32 z).length = 4 := by
  simp [encI32, leBytes_length]

theorem encI64_length (z : Int) : (encI64 z).length = 8 := by
  simp [encI64, leBytes_length]

theorem readBytes_exact (n : Nat) (xs rest : List Nat) (h : xs.length = n) :
    readBytes n (xs ++ rest) = .ok (xs, rest) := by
  subst h
  simp [readBytes, List.take_left, List.drop_left]

theorem readCString_append (k rest : List Nat) (h : ∀ b ∈ k, b ≠ 0) :
    readCString (k ++ 0 :: rest) = .ok (k, rest) := by
  induction k with
  | nil => simp [readCString]
  | cons b bs ih =>
    have hb : b ≠ 0 := h b (List.mem_cons_self b bs)
    have htail : ∀ x ∈ bs, x ≠ 0 := fun x hx => h x (List.mem_cons_of_mem b hx)
    simp [readCString, hb, ih htail]

theorem readI32_encI32 (z : Int) (rest : List Nat)
    (h1 : -(2 ^ 31) ≤ z) (h2 : z < 2 ^ 31) :
    readI32 (encI32 z ++ rest) = .ok (z, rest) := by
  have hlen : (encI32 z).length = 4 := encI32_length z
  rw [readI32, readBytes_exact 4 _ rest hlen]
  have e1 : (2 : Int) ^ 32 = 4294967296 := by norm_num
  have e2 : (2 : Int) ^ 31 = 2147483648 := by norm_num
  have e3 : (2 : Nat) ^ (8 * 4) = 4294967296 := by norm_num
  have hval : fromLE (leBytes 4 (z % (2 ^ 32 : Int)).toNat) = (z % (2 ^ 32 : Int)).toNat := by
    apply fromLE_leBytes
    rw [e3, e1]
    omega
  simp only [encI32, hval, toSigned]
  rw [e1] at *
  rw [e2] at h1 h2
  norm_num
  split <;> omega

theorem readI64_encI64 (z : Int) (rest : List Nat)
    (h1 : -(2 ^ 63) ≤ z) (h2 : z < 2 ^ 63) :
    readI64 (encI64 z ++ rest) = .ok (z, rest) := by
  have hlen : (encI64 z).length = 8 := encI64_length z
  rw [readI64, readBytes_exact 8 _ rest hlen]
  have e1 : (2 : Int) ^ 64 = 18446744073709551616 := by norm_num
  have e2 : (2 : Int) ^ 63 = 9223372036854775808 := by norm_num
  have e3 : (2 : Nat) ^ (8 * 8) = 18446744073709551616 := by norm_num
  have hval : fromLE (leBytes 8 (z % (2 ^ 64 : Int)).toNat) = (z % (2 ^ 64 : Int)).toNat := by
    apply fromLE_leBytes
    rw [e3, e1]
    omega
  simp only [encI64, hval, toSigned]
  rw [e1] at *
  rw [e2] at h1 h2
  norm_num
  split <;> omega

theorem decimalDigits_ne_zero (f n : Nat) : ∀ b ∈ decimalDigits f n, b ≠ 0 := by
  induction f generalizing n with
  | zero => simp [decimalDigits]
  | succ f ih =>
    intro b hb
    simp only [decimalDigits] at hb
    split at hb
    · simp at hb
      omega
    · rw [List.mem_append] at hb
      rcases hb with hb | hb
      · exact ih (n / 10) b hb
      · simp at hb
        omega

theorem natKey_ne_zero (i : Nat) : ∀ b ∈ natKey i, b ≠ 0 :=
  decimalDigits_ne_zero (i + 1) i

theorem readI32_skip (xs rest : List Nat) (h : xs.length = 4) :
    readI32 (xs ++ rest) = .ok (toSigned 32 (fromLE xs), rest) := by
  rw [readI32, readBytes_exact 4 xs rest h]

theorem fromLE_leBytes8 (n : Nat) (h : n < 2 ^ 64) : fromLE (leBytes 8 n) = n :=
  fromLE_leBytes 8 n h

theorem tagOf_ne_zero (v : BsonV) : tagOf v ≠ 0 := by
  cases v <;> simp [tagOf]

/-! ## Scalar cases of the decode/encode round trip -/

theorem decValue_double (bits : Nat) (h : bits < 2 ^ 64) (f : Nat) (rest : List Nat) :
    decValue .strict (f + 1) 0x01 (leBytes 8 bits ++ rest) = .ok (.double bits, rest) := by
  simp [decValue, readBytes_exact 8 _ rest (leBytes_length 8 bits), fromLE_leBytes8 bits h]

theorem decValue_string (s : List Nat) (hv : utf8Valid s = true)
    (hl : s.length + 1 < 2 ^ 31) (f : Nat) (rest : List Nat) :
    decValue .strict (f + 1) 0x02 ((encI32 ((s.length : Int) + 1) ++ s ++ [0]) ++ rest) =
      .ok (.string s, rest) := by
  simp only [decValue, reduceIte, readString]
  have hr : encI32 ((s.length : Int) + 1) ++ s ++ [0] ++ rest
      = encI32 ((s.length : Int) + 1) ++ (s ++ 0 :: rest) := by
    simp
  rw [hr, readI32_encI32 _ _ (by omega) (by exact_mod_cast hl)]
  have hlt : ¬ ((s.length : Int) + 1 < 1) := by omega
  simp only [hlt, reduceIte]
  have htn : ((s.length : Int) + 1 - 1).toNat = s.length := by omega
  rw [htn, readBytes_exact s.length s (0 :: rest) rfl]
  simp [readU8, hv]

theorem decValue_binary (sub : Nat) (data : List Nat) (hs : sub < 256)
    (hl : data.length < 2 ^ 31) (f : Nat) (rest : List Nat) :
    decValue .strict (f + 1) 0x05 ((encI32 (data.length : Int) ++ [sub % 256] ++ data) ++ rest) =
      .ok (.binary sub data, rest) := by
  simp only [decValue, reduceIte]
  have hr : encI32 (data.length : Int) ++ [sub % 256] ++ data ++ rest
      = encI32 (data.length : Int) ++ ((sub % 256) :: (data ++ rest)) := by
    simp
  rw [hr, readI32_encI32 _ _ (by omega) (by exact_mod_cast hl)]
  have hlt : ¬ ((data.length : Int) < 0) := by omega
  simp only [hlt, reduceIte, readU8]
  have htn : ((data.length : Int)).toNat = data.length := by omega
  rw [htn, readBytes_exact data.length data rest rfl]
  simp [Nat.mod_eq_of_lt hs]

theorem decValue_objectId (b : List Nat) (h : b.length = 12) (f : Nat) (rest : List Nat) :
    decValue .strict (f + 1) 0x07 (b ++ rest) = .ok (.objectId b, rest) := by
  simp [decValue, readBytes_exact 12 b rest h]

theorem decValue_boolean (b : Bool) (f : Nat) (rest : List Nat) :
    decValue .strict (f + 1) 0x08 ((if b then 1 else 0) :: rest) = .ok (.boolean b, rest) := by
  cases b <;> simp [decValue, readU8]

theorem decValue_dateTime (ms : Int) (h1 : -(2 ^ 63) ≤ ms) (h2 : ms < 2 ^ 63)
    (f : Nat) (rest : List Nat) :
    decValue .strict (f + 1) 0x09 (encI64 ms ++ rest) = .ok (.dateTime ms, rest) := by
  simp [decValue, readI64_encI64 ms rest h1 h2]

theorem decValue_null (f : Nat) (rest : List Nat) :
    decValue .strict (f + 1) 0x0A rest = .ok (.null, rest) := by
  simp [decValue]

theorem decValue_int32 (z : Int) (h1 : -(2 ^ 31) ≤ z) (h2 : z < 2 ^ 31)
    (f : Nat) (rest : List Nat) :
    decValue .strict (f + 1) 0x10 (encI32 z ++ rest) = .ok (.int32 z, rest) := by
  simp [decValue, readI32_encI32 z rest h1 h2]

theorem decValue_int64 (z : Int) (h1 : -(2 ^ 63) ≤ z) (h2 : z < 2 ^ 63)
    (f : Nat) (rest : List Nat) :
    decValue .strict (f + 1) 0x12 (encI64 z ++ rest) = .ok (.int64 z, rest) := by
  simp [decValue, readI64_encI64 z rest h1 h2]

theorem decValue_doc_step (mode : Utf8Mode) (f : Nat) (bs : List Nat) :
    decValue mode (f + 1) 0x03 bs =
      match readI32 bs with
      | .ok (_, bs1) =>
        match decElems mode f bs1 with
        | .ok (d, rest) => .ok (.document d, rest)
        | .error e => .error e
      | .error e => .error e := by
  simp [decValue]

theorem decValue_arr_step (mode : Utf8Mode) (f : Nat) (bs : List Nat) :
    decValue mode (f + 1) 0x04 bs =
      match readI32 bs with
      | .ok (_, bs1) =>
        match decArrElems mode f bs1 with
        | .ok (xs, rest) => .ok (.array xs, rest)
        | .error e => .error e
      | .error e => .error e := by
  simp [decValue]

/-! ## The decode/encode round trip, by strong induction on size -/

theorem dec_enc_all (n : Nat) :
    (∀ v : BsonV, sizeOf v ≤ n → ∀ fuel rest, wfV v = true →
      (encValue v).length + 1 ≤ fuel →
      decValue .strict fuel (tagOf v) (encValue v ++ rest) = .ok (v, rest)) ∧
    (∀ d : BsonDoc, sizeOf d ≤ n → ∀ fuel rest, wfD d = true →
      (encElems d).length + 1 ≤ fuel →
      decElems .strict fuel (encElems d ++ 0 :: rest) = .ok (d, rest)) ∧
    (∀ xs : BsonArr, sizeOf xs ≤ n → ∀ fuel i rest, wfA xs = true →
      (encArrElems xs i).length + 1 ≤ fuel →
      decArrElems .strict fuel (encArrElems xs i ++ 0 :: rest) = .ok (xs, rest)) := by
  induction n using Nat.strong_induction_on with
  | _ n ih =>
    refine ⟨?_, ?_, ?_⟩
    · intro v hsize fuel rest hwf hfuel
      cases fuel with
      | zero => omega
      | succ f =>
        cases v with
        | double bits =>
          simp only [wfV, decide_eq_true_eq] at hwf
          simpa [tagOf, encValue] using decValue_double bits hwf f rest
        | string s =>
          simp only [wfV, Bool.and_eq_true, decide_eq_true_eq] at hwf
          simpa [tagOf, encValue] using decValue_string s hwf.1.2 hwf.2 f rest
        | document d =>
          simp only [wfV] at hwf
          have hsd : sizeOf d < n := by
            have := BsonV.document.sizeOf_spec d
            omega
          have hlen : (encValue (BsonV.document d)).length = (encElems d).length + 5 := by
            simp [encValue, encI32_length]
            omega
          obtain ⟨_, ihQ, _⟩ := ih (n - 1) (by omega)
          have hq := ihQ d (by omega) f rest hwf (by omega)
          simp only [tagOf, encValue]
          rw [List.append_assoc, List.append_assoc]
          rw [decValue_doc_step, readI32_skip _ _ (encI32_length _)]
          simp only [List.singleton_append, ← List.append_assoc] at hq ⊢
          rw [hq]
        | array xs =>
          simp only [wfV] at hwf
          have hsd : sizeOf xs < n := by
            have := BsonV.array.sizeOf_spec xs
            omega
          have hlen : (encValue (BsonV.array xs)).length = (encArrElems xs 0).length + 5 := by
            simp [encValue, encI32_length]
            omega
          obtain ⟨_, _, ihR⟩ := ih (n - 1) (by omega)
          have hq := ihR xs (by omega) f 0 rest hwf (by omega)
          simp only [tagOf, encValue]
          rw [List.append_assoc, List.append_assoc]
          rw [decValue_arr_step, readI32_skip _ _ (encI32_length _)]
          simp only [List.singleton_append, ← List.append_assoc] at hq ⊢
          rw [hq]
        | binary sub data =>
          simp only [wfV, Bool.and_eq_true, decide_eq_true_eq] at hwf
          simpa [tagOf, encValue] using
            decValue_binary sub data hwf.1.1 hwf.2 f rest
        | objectId b =>
          simp only [wfV, Bool.and_eq_true, decide_eq_true_eq] at hwf
          simpa [tagOf, encValue] using decValue_objectId b hwf.1 f rest
        | boolean b =>
          simpa [tagOf, encValue] using decValue_boolean b f rest
        | dateTime ms =>
          simp only [wfV, Bool.and_eq_true, decide_eq_true_eq] at hwf
          simpa [tagOf, encValue] using decValue_dateTime ms hwf.1 hwf.2 f rest
        | null =>
          simpa [tagOf, encValue] using decValue_null f rest
        | int32 z =>
          simp only [wfV, Bool.and_eq_true, decide_eq_true_eq] at hwf
          simpa [tagOf, encValue] using decValue_int32 z hwf.1 hwf.2 f rest
        | int64 z =>
          simp only [wfV, Bool.and_eq_true, decide_eq_true_eq] at hwf
          simpa [tagOf, encValue] using decValue_int64 z hwf.1 hwf.2 f rest
    · intro d hsize fuel rest hwf hfuel
      cases fuel with
      | zero => omega
      | succ f =>
        cases d with
        | nil => simp [encElems, decElems, readU8]
        | cons k v d2 =>
          simp only [wfD, Bool.and_eq_true] at hwf
          obtain ⟨⟨hk, hv⟩, hd2⟩ := hwf
          have hknz : ∀ b ∈ k, b ≠ 0 := by
            simp only [keyOk, Bool.and_eq_true, List.all_eq_true, decide_eq_true_eq] at hk
            exact hk.1.2
          have hsv : sizeOf v < n := by
            have := BsonDoc.cons.sizeOf_spec k v d2
            omega
          have hsd : sizeOf d2 < n := by
            have := BsonDoc.cons.sizeOf_spec k v d2
            omega
          have hlen : (encElems (BsonDoc.cons k v d2)).length
              = (encValue v).length + (encElems d2).length + k.length + 2 := by
            simp [encElems]
            omega
          obtain ⟨ihP, ihQ, _⟩ := ih (n - 1) (by omega)
          have hp := ihP v (by omega) f (encElems d2 ++ 0 :: rest) hv (by omega)
          have hq := ihQ d2 (by omega) f rest hd2 (by omega)
          simp only [encElems]
          rw [List.cons_append]
          simp [decElems, readU8, tagOf_ne_zero v]
          rw [readCString_append k _ hknz]
          simp [hp, hq]
    · intro xs hsize fuel i rest hwf hfuel
      cases fuel with
      | zero => omega
      | succ f =>
        cases xs with
        | nil => simp [encArrElems, decArrElems, readU8]
        | cons v xs2 =>
          simp only [wfA, Bool.and_eq_true] at hwf
          obtain ⟨hv, hxs2⟩ := hwf
          have hsv : sizeOf v < n := by
            have := BsonArr.cons.sizeOf_spec v xs2
            omega
          have hsd : sizeOf xs2 < n := by
            have := BsonArr.cons.sizeOf_spec v xs2
            omega
          have hlen : (encArrElems (BsonArr.cons v xs2) i).length
              = (encValue v).length + (encArrElems xs2 (i + 1)).length + (natKey i).length + 2 := by
            simp [encArrElems]
            omega
          obtain ⟨ihP, _, ihR⟩ := ih (n - 1) (by omega)
          have hp := ihP v (by omega) f (encArrElems xs2 (i + 1) ++ 0 :: rest) hv (by omega)
          have hq := ihR xs2 (by omega) f (i + 1) rest hxs2 (by omega)
          simp only [encArrElems]
          rw [List.cons_append]
          simp [decArrElems, readU8, tagOf_ne_zero v]
          rw [readCString_append (natKey i) _ (natKey_ne_zero i)]
          simp [hp, hq]

/-- Strict decode inverts encode on well-formed documents. -/
theorem decode_encode (d : BsonDoc) (h : wfD d = true) :
    decode_document .strict (encode_document d) = .ok d := by
  have hshape : encode_document d
      = encI32 (((encElems d).length : Int) + 5) ++ (encElems d ++ [0]) := by
    simp [encode_document]
  have hq := (dec_enc_all (sizeOf d)).2.1 d le_rfl
      ((encI32 (((encElems d).length : Int) + 5) ++ (encElems d ++ [0])).length + 1) [] h
      (by simp [encI32_length]; omega)
  rw [decode_document, hshape, readI32_skip _ _ (encI32_length _)]
  simp only at hq ⊢
  rw [hq]

/-- Round trip through the Bsonc bridge: encoding a well-formed document
into native bytes and decoding it strictly returns the same document. -/
theorem bsonc_decode_encode (d : BsonDoc) (h : wfD d = true) :
    (Bsonc.from_document d).bind Bsonc.as_document = .ok d := by
  simp [Bsonc.from_document, Bsonc.as_document, Except.bind, decode_encode d h]

theorem readBytes_error (n : Nat) (bs : List Nat) (e : DecoderError)
    (h : readBytes n bs = .error e) : e = .unexpectedEof := by
  unfold readBytes at h
  split at h <;> simp_all

theorem readU8_error (bs : List Nat) (e : DecoderError)
    (h : readU8 bs = .error e) : e = .unexpectedEof := by
  cases bs <;> simp_all [readU8]

theorem readCString_error (bs : List Nat) (e : DecoderError)
    (h : readCString bs = .error e) : e = .unexpectedEof := by
  induction bs with
  | nil => simp_all [readCString]
  | cons b rest ih =>
    simp only [readCString] at h
    split at h
    · simp_all
    · split at h <;> simp_all

theorem readI32_error (bs : List Nat) (e : DecoderError)
    (h : readI32 bs = .error e) : e = .unexpectedEof := by
  unfold readI32 at h
  split at h <;> simp_all [readBytes_error]
  rename_i heq
  exact readBytes_error _ _ _ heq

theorem readI64_error (bs : List Nat) (e : DecoderError)
    (h : readI64 bs = .error e) : e = .unexpectedEof := by
  unfold readI64 at h
  split at h <;> simp_all
  rename_i heq
  exact readBytes_error _ _ _ heq

theorem readString_lossy_error (bs : List Nat) (e : DecoderError)
    (h : readString .lossy bs = .error e) :
    e = .unexpectedEof ∨ e = .badLength := by
  unfold readString at h
  repeat' split at h
  all_goals simp_all
  all_goals
    first
    | exact .inl (readI32_error _ _ (by assumption))
    | exact .inl (readBytes_error _ _ _ (by assumption))
    | exact .inl (readU8_error _ _ (by assumption))

/-! ## Branch equations of decValue at each tag -/

theorem decValue_step_double (mode : Utf8Mode) (f : Nat) (bs : List Nat) :
    decValue mode (f + 1) 0x01 bs =
      match readBytes 8 bs with
      | .ok (chunk, rest) => .ok (.double (fromLE chunk), rest)
      | .error e => .error e := by
  simp [decValue]

theorem decValue_step_string (mode : Utf8Mode) (f : Nat) (bs : List Nat) :
    decValue mode (f + 1) 0x02 bs =
      match readString mode bs with
      | .ok (s, rest) => .ok (.string s, rest)
      | .error e => .error e := by
  simp [decValue]

theorem decValue_step_binary (mode : Utf8Mode) (f : Nat) (bs : List Nat) :
    decValue mode (f + 1) 0x05 bs =
      match readI32 bs with
      | .error e => .error e
      | .ok (len, bs1) =>
        if len < 0 then .error .badLength
        else
          match readU8 bs1 with
          | .error e => .error e
          | .ok (sub, bs2) =>
            match readBytes len.toNat bs2 with
            | .ok (data, rest) => .ok (.binary sub data, rest)
            | .error e => .error e := by
  simp [decValue]

theorem decValue_step_objectId (mode : Utf8Mode) (f : Nat) (bs : List Nat) :
    decValue mode (f + 1) 0x07 bs =
      match readBytes 12 bs with
      | .ok (chunk, rest) => .ok (.objectId chunk, rest)
      | .error e => .error e := by
  simp [decValue]

theorem decValue_step_boolean (mode : Utf8Mode) (f : Nat) (bs : List Nat) :
    decValue mode (f + 1) 0x08 bs =
      match readU8 bs with
      | .ok (b, rest) => .ok (.boolean (b ≠ 0), rest)
      | .error e => .error e := by
  simp [decValue]

theorem decValue_step_dateTime (mode : Utf8Mode) (f : Nat) (bs : List Nat) :
    decValue mode (f + 1) 0x09 bs =
      match readI64 bs with
      | .ok (z, rest) => .ok (.dateTime z, rest)
      | .error e => .error e := by
  simp [decValue]

theorem decValue_step_null (mode : Utf8Mode) (f : Nat) (bs : List Nat) :
    decValue mode (f + 1) 0x0A bs = .ok (.null, bs) := by
  simp [decValue]

theorem decValue_step_int32 (mode : Utf8Mode) (f : Nat) (bs : List Nat) :
    decValue mode (f + 1) 0x10 bs =
      match readI32 bs with
      | .ok (z, rest) => .ok (.int32 z, rest)
      | .error e => .error e := by
  simp [decValue]

theorem decValue_step_int64 (mode : Utf8Mode) (f : Nat) (bs : List Nat) :
    decValue mode (f + 1) 0x12 bs =
      match readI64 bs with
      | .ok (z, rest) => .ok (.int64 z, rest)
      | .error e => .error e := by
  simp [decValue]

theorem decValue_step_other (mode : Utf8Mode) (f : Nat) (tag : Nat) (bs : List Nat)
    (h1 : tag ≠ 0x01) (h2 : tag ≠ 0x02) (h3 : tag ≠ 0x03) (h4 : tag ≠ 0x04)
    (h5 : tag ≠ 0x05) (h7 : tag ≠ 0x07) (h8 : tag ≠ 0x08) (h9 : tag ≠ 0x09)
    (hA : tag ≠ 0x0A) (hG : tag ≠ 0x10) (hH : tag ≠ 0x12) :
    decValue mode (f + 1) tag bs = .error (.unsupportedType tag) := by
  simp [decValue, h1, h2, h3, h4, h5, h7, h8, h9, hA, hG, hH]

/-! ## The lossy decoder never reports an invalid-UTF-8 error -/

theorem dec_lossy_all (fuel : Nat) :
    (∀ tag bs e, decValue .lossy fuel tag bs = .error e → e ≠ .invalidUtf8) ∧
    (∀ bs e, decElems .lossy fuel bs = .error e → e ≠ .invalidUtf8) ∧
    (∀ bs e, decArrElems .lossy fuel bs = .error e → e ≠ .invalidUtf8) := by
  induction fuel with
  | zero =>
    refine ⟨?_, ?_, ?_⟩
    · intro tag bs e h
      simp only [decValue] at h
      simp at h
      subst h
      decide
    · intro bs e h
      simp only [decElems] at h
      simp at h
      subst h
      decide
    · intro bs e h
      simp only [decArrElems] at h
      simp at h
      subst h
      decide
  | succ f ih =>
    obtain ⟨ihV, ihE, ihA⟩ := ih
    refine ⟨?_, ?_, ?_⟩
    · intro tag bs e h
      by_cases t1 : tag = 0x01
      · subst t1
        rw [decValue_step_double] at h
        split at h <;> simp_all
        have hx := readBytes_error _ _ _ (by assumption)
        simp_all
      by_cases t2 : tag = 0x02
      · subst t2
        rw [decValue_step_string] at h
        split at h <;> simp_all
        rcases readString_lossy_error _ _ (by assumption) with hx | hx <;> simp_all
      by_cases t3 : tag = 0x03
      · subst t3
        rw [decValue_doc_step] at h
        split at h
        · split at h <;> simp_all
          have hx := ihE _ _ (by assumption)
          simp_all
        · simp_all
          have hx := readI32_error _ _ (by assumption)
          simp_all
      by_cases t4 : tag = 0x04
      · subst t4
        rw [decValue_arr_step] at h
        split at h
        · split at h <;> simp_all
          have hx := ihA _ _ (by assumption)
          simp_all
        · simp_all
          have hx := readI32_error _ _ (by assumption)
          simp_all
      by_cases t5 : tag = 0x05
      · subst t5
        rw [decValue_step_binary] at h
        split at h
        · simp_all
          have hx := readI32_error _ _ (by assumption)
          simp_all
        · split at h
          · intro hh
            subst hh
            simp_all
          · split at h
            · simp_all
              have hx := readU8_error _ _ (by assumption)
              simp_all
            · split at h <;> simp_all
              have hx := readBytes_error _ _ _ (by assumption)
              simp_all
      by_cases t7 : tag = 0x07
      · subst t7
        rw [decValue_step_objectId] at h
        split at h <;> simp_all
        have hx := readBytes_error _ _ _ (by assumption)
        simp_all
      by_cases t8 : tag = 0x08
      · subst t8
        rw [decValue_step_boolean] at h
        split at h <;> simp_all
        have hx := readU8_error _ _ (by assumption)
        simp_all
      by_cases t9 : tag = 0x09
      · subst t9
        rw [decValue_step_dateTime] at h
        split at h <;> simp_all
        have hx := readI64_error _ _ (by assumption)
        simp_all
      by_cases tA : tag = 0x0A
      · subst tA
        rw [decValue_step_null] at h
        simp_all
      by_cases tG : tag = 0x10
      · subst tG
        rw [decValue_step_int32] at h
        split at h <;> simp_all
        have hx := readI32_error _ _ (by assumption)
        simp_all
      by_cases tH : tag = 0x12
      · subst tH
        rw [decValue_step_int64] at h
        split at h <;> simp_all
        have hx := readI64_error _ _ (by assumption)
        simp_all
      rw [decValue_step_other .lossy f tag bs t1 t2 t3 t4 t5 t7 t8 t9 tA tG tH] at h
      intro hh
      subst hh
      simp_all
    · intro bs e h
      rw [decElems] at h
      cases hu : readU8 bs with
      | error e1 =>
        rw [hu] at h
        simp at h
        have hx := readU8_error _ _ hu
        intro hh
        simp_all
      | ok p =>
        obtain ⟨tag, bs1⟩ := p
        rw [hu] at h
        simp only at h
        by_cases ht : tag = 0
        · rw [if_pos ht] at h
          simp at h
        · rw [if_neg ht] at h
          cases hc : readCString bs1 with
          | error e1 =>
            rw [hc] at h
            simp at h
            have hx := readCString_error _ _ hc
            intro hh
            simp_all
          | ok p2 =>
            obtain ⟨k, bs2⟩ := p2
            rw [hc] at h
            simp only at h
            cases hv : decValue .lossy f tag bs2 with
            | error e1 =>
              rw [hv] at h
              simp at h
              have hx := ihV _ _ _ hv
              intro hh
              simp_all
            | ok p3 =>
              obtain ⟨v, bs3⟩ := p3
              rw [hv] at h
              simp only at h
              cases hd : decElems .lossy f bs3 with
              | error e1 =>
                rw [hd] at h
                simp at h
                have hx := ihE _ _ hd
                intro hh
                simp_all
              | ok p4 =>
                rw [hd] at h
                simp at h
    · intro bs e h
      rw [decArrElems] at h
      cases hu : readU8 bs with
      | error e1 =>
        rw [hu] at h
        simp at h
        have hx := readU8_error _ _ hu
        intro hh
        simp_all
      | ok p =>
        obtain ⟨tag, bs1⟩ := p
        rw [hu] at h
        simp only at h
        by_cases ht : tag = 0
        · rw [if_pos ht] at h
          simp at h
        · rw [if_neg ht] at h
          cases hc : readCString bs1 with
          | error e1 =>
            rw [hc] at h
            simp at h
            have hx := readCString_error _ _ hc
            intro hh
            simp_all
          | ok p2 =>
            obtain ⟨k, bs2⟩ := p2
            rw [hc] at h
            simp only at h
            cases hv : decValue .lossy f tag bs2 with
            | error e1 =>
              rw [hv] at h
              simp at h
              have hx := ihV _ _ _ hv
              intro hh
              simp_all
            | ok p3 =>
              obtain ⟨v, bs3⟩ := p3
              rw [hv] at h
              simp only at h
              cases hd : decArrElems .lossy f bs3 with
              | error e1 =>
                rw [hd] at h
                simp at h
                have hx := ihA _ _ hd
                intro hh
                simp_all
              | ok p4 =>
                rw [hd] at h
                simp at h

/-- The lossy document decoder never reports an invalid-UTF-8 error. -/
theorem decode_document_lossy_never_invalidUtf8 (bs : List Nat) :
    decode_document .lossy bs ≠ .error .invalidUtf8 := by
  rw [decode_document]
  cases hi : readI32 bs with
  | error e1 =>
    have hx := readI32_error _ _ hi
    intro hh
    simp_all
  | ok p =>
    obtain ⟨len, rest⟩ := p
    simp only
    cases hd : decElems .lossy (bs.length + 1) rest with
    | error e1 =>
      have hx := (dec_lossy_all (bs.length + 1)).2.1 _ _ hd
      intro hh
      simp_all
    | ok p2 =>
      simp

/-- The lossy Bsonc decode never reports an invalid-UTF-8 error. -/
theorem as_document_utf8_lossy_never_invalidUtf8 (b : Bsonc) :
    b.as_document_utf8_lossy ≠ .error (.decoder .invalidUtf8) := by
  rw [Bsonc.as_document_utf8_lossy]
  cases hd : decode_document .lossy b.data with
  | error e1 =>
    have hx := decode_document_lossy_never_invalidUtf8 b.data
    rw [hd] at hx
    simp only
    intro hh
    simp at hh
    subst hh
    exact hx rfl
  | ok d => simp

/-! ## The plain cursor protocol (src/cursor.rs, struct Cursor)

The native cursor handle is an oracle: a list of rounds, each round
describing what the driver answers to one mongoc_cursor_next call
(success flag and the raw document buffer) together with the surrounding
signals (mongoc_cursor_more before the call, mongoc_cursor_error and
mongoc_cursor_is_alive after it).  An exhausted oracle (no rounds left)
reports more = false and keeps answering failure with an empty error. -/

structure DriverRound where
  more : Bool
  success : Bool
  doc : List Nat
  error : Option BsoncError
  aliveAfter : Bool
deriving DecidableEq, Repr

structure DriverState where
  rounds : List DriverRound
  lastError : Option BsoncError
  alive : Bool
deriving DecidableEq, Repr

/-- What mongoc_cursor_more reports in this state. -/
def DriverState.moreSig (d : DriverState) : Bool :=
  match d.rounds with
  | [] => false
  | r :: _ => r.more

/-- One mongoc_cursor_next call: consume a round. -/
def DriverState.nextCall (d : DriverState) : (Bool × List Nat) × DriverState :=
  match d.rounds with
  | [] => ((false, []), { d with lastError := none, alive := false })
  | r :: rest => ((r.success, r.doc), ⟨rest, r.error, r.aliveAfter⟩)

/-- Driver calls the cursor loop makes, for the observable trace. -/
inductive DCall where
  | more
  | next
  | error
  | alive
  | sleep
deriving DecidableEq, Repr

/-- The Cursor struct: native handle, tailing flag, wait duration. -/
structure Cursor where
  inner : DriverState
  tailing : Bool
  tail_wait_duration : Nat
deriving DecidableEq, Repr

def Cursor.is_alive (c : Cursor) : Bool := c.inner.alive

def Cursor.more (c : Cursor) : Bool := c.inner.moreSig

/-- mongoc_cursor_error; none plays the role of an empty BsoncError. -/
def Cursor.error (c : Cursor) : Option BsoncError := c.inner.lastError

/-- One pass of the loop body of the Iterator::next implementation for
Cursor.  The first component is some v when the pass returns v, and none
when the pass sleeps and continues (tailing wait); the trace lists the
driver calls the pass made. -/
def cursorBody (c : Cursor) : Option (Option (MResult BsonDoc)) × Cursor × List DCall :=
  if c.more = false then (some none, c, [.more])
  else
    let r := c.inner.nextCall
    let success := r.1.1
    let bson_ptr := r.1.2
    let c1 : Cursor := { c with inner := r.2 }
    let error := c1.error
    if success = false then
      match error with
      | none =>
        if c1.tailing then
          if c1.is_alive then (none, c1, [.more, .next, .error, .alive, .sleep])
          else (some none, c1, [.more, .next, .error, .alive])
        else (some none, c1, [.more, .next, .error])
      | some e => (some (some (.error (.bsonc e))), c1, [.more, .next, .error])
    else
      match Bsonc.as_document ⟨bson_ptr⟩ with
      | .ok document => (some (some (.ok document)), c1, [.more, .next, .error])
      | .error e => (some (some (.error e)), c1, [.more, .next, .error])

/-- Iterator::next for Cursor, with a recursion budget for the tailing
wait loop (the only way the loop repeats). -/
def Cursor.next (fuel : Nat) (c : Cursor) :
    Option (Option (MResult BsonDoc) × Cursor × List DCall) :=
  match fuel with
  | 0 => none
  | f + 1 =>
    match cursorBody c with
    | (some v, c1, t) => some (v, c1, t)
    | (none, c1, t) =>
      match Cursor.next f c1 with
      | none => none
      | some (v, c2, t2) => some (v, c2, t ++ t2)

/-- Results of n successive next() calls (stops if the budget runs out). -/
def cursorTake (fuel : Nat) : Nat → Cursor → List (Option (MResult BsonDoc)) × Cursor
  | 0, c => ([], c)
  | n + 1, c =>
    match Cursor.next fuel c with
    | none => ([], c)
    | some (v, c1, _) =>
      let r := cursorTake fuel n c1
      (v :: r.1, r.2)

/-- A driver round that successfully hands over one encoded document. -/
def okRound (d : BsonDoc) : DriverRound :=
  { more := true, success := true, doc := encode_document d, error := none, aliveAfter := true }

/-- A driver round that fails with a substantive error. -/
def errRound (e : BsoncError) : DriverRound :=
  { more := true, success := false, doc := [], error := some e, aliveAfter := false }

/-- A driver round that fails with no error and a dead cursor
(end of stream). -/
def deadRound : DriverRound :=
  { more := true, success := false, doc := [], error := none, aliveAfter := false }

/-- A non-tailing cursor over a driver source that yields exactly the
given documents and reports no error. -/
def srcCursor (ds : List BsonDoc) : Cursor :=
  { inner := ⟨ds.map okRound, none, true⟩, tailing := false, tail_wait_duration := 0 }

/-! ## The tailing cursor (src/cursor.rs, struct TailingCursor) -/

/-- Query flags relevant to the modelled paths (QueryFlag in
src/flags.rs; the remaining variants of the source enum never occur in
the code under study). -/
inductive QueryFlag where
  | TailableCursor
  | SlaveOk
  | OplogReplay
  | NoCursorTimeout
  | AwaitData
  | Exhaust
deriving DecidableEq, Repr

/-- Flags with set semantics (BTreeSet-backed in the source). -/
structure Flags where
  flags : List QueryFlag
deriving DecidableEq, Repr

def Flags.add (f : Flags) (x : QueryFlag) : Flags :=
  if x ∈ f.flags then f else ⟨f.flags ++ [x]⟩

/-- The find options the tailing cursor carries (src/lib.rs); only the
query flags are inspected by the modelled paths. -/
structure CommandAndFindOptions where
  query_flags : Flags
  skip : Nat
  limit : Nat
  batch_size : Nat
  fields : Option BsonDoc

structure TailOptions where
  wait_duration : Nat
  max_retries : Nat
deriving DecidableEq, Repr

/-- The TailingCursor struct.  find_calls is oracle instrumentation (how
many collection.find calls were issued), not a field of the Rust
struct. -/
structure TailingCursor where
  query : BsonDoc
  find_options : CommandAndFindOptions
  tail_options : TailOptions
  cursor : Option Cursor
  last_seen_id : Option (List Nat)
  retry_count : Nat
  find_calls : Nat

/-- TailingCursor::new: add the tailable flags, start with no cursor, no
last seen id and a zero retry counter. -/
def TailingCursor.new (query : BsonDoc) (find_options : CommandAndFindOptions)
    (tail_options : TailOptions) : TailingCursor :=
  { query := query
    find_options :=
      { find_options with
        query_flags := (find_options.query_flags.add .TailableCursor).add .AwaitData }
    tail_options := tail_options
    cursor := none
    last_seen_id := none
    retry_count := 0
    find_calls := 0 }

/-- The collection.find collaborator: answers the k-th find call on a
query and options with a driver cursor handle or an error. -/
structure TailEnv where
  find : BsonDoc → CommandAndFindOptions → Nat → MResult DriverState

/-- Key bytes of the id field. -/
def oidKey : List Nat := [95, 105, 100]

/-- Key bytes of the greater-than operator. -/
def gtKey : List Nat := [36, 103, 116]

inductive TailStep where
  | ret (v : Option (MResult BsonDoc)) (s : TailingCursor)
  | again (s : TailingCursor)
  | fuelOut

/-- Pull one item from the inner cursor (the match on cursor.next() in
TailingCursor::next): on success reset the retry counter and return; on
an error return it when the retry counter has reached max_retries and
otherwise fall through to the loop end (increment the counter, drop the
cursor); on end of stream always fall through to the loop end. -/
def tailingPull (cfuel : Nat) (s : TailingCursor) (c : Cursor) : TailStep :=
  match Cursor.next cfuel c with
  | none => .fuelOut
  | some (v, c1, _) =>
    let s1 := { s with cursor := some c1 }
    match v with
    | some (.ok next) => .ret (some (.ok next)) { s1 with retry_count := 0 }
    | some (.error e) =>
      if s1.retry_count ≥ s1.tail_options.max_retries then .ret (some (.error e)) s1
      else .again { s1 with retry_count := s1.retry_count + 1, cursor := none }
    | none => .again { s1 with retry_count := s1.retry_count + 1, cursor := none }

/-- One iteration of the loop in TailingCursor::next: rebuild the inner
cursor if absent (taking the last seen id into the query), then pull. -/
def tailingBody (env : TailEnv) (cfuel : Nat) (s : TailingCursor) : TailStep :=
  match s.cursor with
  | none =>
    let q :=
      match s.last_seen_id with
      | some id => s.query.insert_bson oidKey (.document (.cons gtKey (.objectId id) .nil))
      | none => s.query
    let s1 := { s with query := q, last_seen_id := none }
    match env.find q s1.find_options s1.find_calls with
    | .error e => .ret (some (.error e)) { s1 with find_calls := s1.find_calls + 1 }
    | .ok drv =>
      let c : Cursor :=
        { inner := drv, tailing := true,
          tail_wait_duration := s1.tail_options.wait_duration }
      tailingPull cfuel { s1 with cursor := some c, find_calls := s1.find_calls + 1 } c
  | some c => tailingPull cfuel s c

/-- Iterator::next for TailingCursor, with a recursion budget for the
retry loop. -/
def TailingCursor.next (env : TailEnv) : Nat → TailingCursor →
    Option (Option (MResult BsonDoc) × TailingCursor)
  | 0, _ => none
  | f + 1, s =>
    match tailingBody env (f + 1) s with
    | .ret v s1 => some (v, s1)
    | .again s1 => TailingCursor.next env f s1
    | .fuelOut => none

/-! ## Batch pagination (src/cursor.rs, struct BatchCursor) -/

/-- Key bytes of the cursor field of a batch envelope. -/
def cursorKey : List Nat := [99, 117, 114, 115, 111, 114]

/-- Key bytes of the id field of a batch envelope. -/
def idKey : List Nat := [105, 100]

/-- Key bytes of the firstBatch field. -/
def firstBatchKey : List Nat := [102, 105, 114, 115, 116, 66, 97, 116, 99, 104]

/-- Key bytes of the nextBatch field. -/
def nextBatchKey : List Nat := [110, 101, 120, 116, 66, 97, 116, 99, 104]

/-- Key bytes of the getMore command field. -/
def getMoreKey : List Nat := [103, 101, 116, 77, 111, 114, 101]

/-- Key bytes of the collection command field. -/
def collectionKey : List Nat := [99, 111, 108, 108, 101, 99, 116, 105, 111, 110]

/-- Deserialize an array whose elements must all be documents
(serde for VecDeque of Document). -/
def arrToDocs : BsonArr → Option (List BsonDoc)
  | .nil => some []
  | .cons (.document d) rest => (arrToDocs rest).map (d :: ·)
  | .cons _ _ => none

/-- Deserialize the i64 cursor id (serde accepts either integer width). -/
def parseI64 : BsonV → Option Int
  | .int64 z => some z
  | .int32 z => some z
  | _ => none

/-- Deserialize an optional batch field: absent is fine, an array of
documents parses, anything else is a failure. -/
def parseBatchField (cdoc : BsonDoc) (key : List Nat) : Option (Option (List BsonDoc)) :=
  match cdoc.get key with
  | none => some none
  | some (.array xs) => (arrToDocs xs).map some
  | some _ => none

/-- batch_to_array from src/cursor.rs: deserialize the envelope
(cursor.id plus optional cursor.firstBatch / cursor.nextBatch; any
deserialization failure collapses to ValueAccessError(NotPresent)), then
prefer firstBatch, then nextBatch, else neither. -/
def batch_to_array (doc : BsonDoc) : MResult (Option (List BsonDoc) × Option Int) :=
  match doc.get cursorKey with
  | some (.document cdoc) =>
    match cdoc.get idKey with
    | some idv =>
      match parseI64 idv with
      | some id =>
        match parseBatchField cdoc firstBatchKey, parseBatchField cdoc nextBatchKey with
        | some fb, some nb =>
          if fb.isSome then .ok (fb, some id)
          else if nb.isSome then .ok (nb, some id)
          else .ok (none, none)
        | _, _ => .error (.valueAccessError .notPresent)
      | none => .error (.valueAccessError .notPresent)
    | none => .error (.valueAccessError .notPresent)
  | _ => .error (.valueAccessError .notPresent)

/-- The BatchCursor struct.  cmd_calls is oracle instrumentation (how
many db.command calls were issued), not a field of the Rust struct. -/
structure BatchCursor where
  cursor : Cursor
  coll_name : List Nat
  cursor_id : Option Int
  documents : Option (List BsonDoc)
  cmd_calls : Nat

/-- The db.command collaborator: answers the k-th command with a driver
cursor handle over the reply or an error. -/
structure BatchEnv where
  command : BsonDoc → Nat → MResult DriverState

/-- Observable getMore requests issued by BatchCursor::next. -/
inductive BCall where
  | getMore (id : Int) (coll : List Nat)
deriving DecidableEq, Repr

/-- BatchCursor::get_next_doc: pop the front of the local queue. -/
def get_next_doc (s : BatchCursor) : Option (MResult BsonDoc) × BatchCursor :=
  match s.documents with
  | some (d :: rest) => (some (.ok d), { s with documents := some rest })
  | _ => (none, s)

/-- BatchCursor::get_cursor_next: pull one item from the inner cursor;
a parsed envelope loads the queue (and the cursor id when one is
reported) and pops; a parse failure surfaces; an inner error result or
end of stream falls through to none. -/
def get_cursor_next (cfuel : Nat) (s : BatchCursor) :
    Option (Option (MResult BsonDoc) × BatchCursor) :=
  match Cursor.next cfuel s.cursor with
  | none => none
  | some (item_opt, c1, _) =>
    let s1 := { s with cursor := c1 }
    match item_opt with
    | some (.ok item) =>
      match batch_to_array item with
      | .ok docs =>
        let s2 :=
          { s1 with
            documents := docs.1
            cursor_id := if docs.2.isSome then docs.2 else s1.cursor_id }
        let r := get_next_doc s2
        match r.1 with
        | some v => some (some v, r.2)
        | none => some (none, r.2)
      | .error e => some (some (.error e), s1)
    | some (.error _) => some (none, s1)
    | none => some (none, s1)

/-- Step (3) of BatchCursor::next: when a cursor id is on file, issue a
getMore command carrying it and the collection name, replace the inner
cursor with the reply when the command succeeds, and retry pulling. -/
def getMoreStep (env : BatchEnv) (cfuel : Nat) (s : BatchCursor) :
    Option (Option (MResult BsonDoc) × BatchCursor × List BCall) :=
  match s.cursor_id with
  | some cid =>
    let command : BsonDoc :=
      .cons getMoreKey (.int64 cid) (.cons collectionKey (.string s.coll_name) .nil)
    match env.command command s.cmd_calls with
    | .ok drv =>
      let s1 :=
        { s with
          cursor := { inner := drv, tailing := false, tail_wait_duration := 0 }
          cmd_calls := s.cmd_calls + 1 }
      match get_cursor_next cfuel s1 with
      | none => none
      | some (some v, s2) => some (some v, s2, [.getMore cid s.coll_name])
      | some (none, s2) => some (none, s2, [.getMore cid s.coll_name])
    | .error _ => some (none, { s with cmd_calls := s.cmd_calls + 1 }, [.getMore cid s.coll_name])
  | none => some (none, s, [])

/-- Iterator::next for BatchCursor: (1) local buffer, (2) inner cursor,
(3) getMore. -/
def BatchCursor.next (env : BatchEnv) (cfuel : Nat) (s : BatchCursor) :
    Option (Option (MResult BsonDoc) × BatchCursor × List BCall) :=
  let r1 := get_next_doc s
  match r1.1 with
  | some v => some (some v, r1.2, [])
  | none =>
    match get_cursor_next cfuel s with
    | none => none
    | some (some v, s1) => some (some v, s1, [])
    | some (none, s1) => getMoreStep env cfuel s1

/-- Results of n successive BatchCursor::next calls, with the
concatenated trace of getMore requests. -/
def batchTake (env : BatchEnv) (cfuel : Nat) :
    Nat → BatchCursor → List (Option (MResult BsonDoc)) × BatchCursor × List BCall
  | 0, s => ([], s, [])
  | n + 1, s =>
    match BatchCursor.next env cfuel s with
    | none => ([], s, [])
    | some (v, s1, t) =>
      let r := batchTake env cfuel n s1
      (v :: r.1, r.2.1, t ++ r.2.2)

/-! ## Helper lemmas about the cursor protocol -/

/-- With no more data signalled, next() returns None immediately, making
only the more() call and leaving the state unchanged. -/
theorem cursor_next_no_more (c : Cursor) (f : Nat) (h : c.more = false) :
    Cursor.next (f + 1) c = some (none, c, [.more]) := by
  simp [Cursor.next, cursorBody, h]

/-- Every further next() call on an exhausted cursor keeps returning
None. -/
theorem cursorTake_no_more (c : Cursor) (h : c.more = false) (k f : Nat) :
    cursorTake (f + 1) k c = (List.replicate k none, c) := by
  induction k with
  | zero => simp [cursorTake]
  | succ k ih => simp [cursorTake, cursor_next_no_more c f h, ih, List.replicate_succ]

/-- Pulling from a source cursor: the head document is decoded and
yielded, the state advances to the source cursor over the tail. -/
theorem srcCursor_step (d : BsonDoc) (ds : List BsonDoc) (h : wfD d = true) (f : Nat) :
    Cursor.next (f + 1) (srcCursor (d :: ds))
      = some (some (.ok d), srcCursor ds, [.more, .next, .error]) := by
  simp [Cursor.next, cursorBody, Cursor.more, DriverState.moreSig, srcCursor, okRound,
    DriverState.nextCall, Cursor.error, Cursor.is_alive, Bsonc.as_document, decode_encode d h]

/-- Claim C6. For every non-tailing cursor over a driver source that
yields exactly N documents (each decoding successfully) and reports no
error, iterating with next() returns exactly the N documents as Ok
results, in order, followed by None, and every further call keeps
returning None. -/
theorem claim_C6_cursor_exhaustion (ds : List BsonDoc) (h : ∀ d ∈ ds, wfD d = true)
    (k f : Nat) :
    cursorTake (f + 1) (ds.length + k) (srcCursor ds)
      = (ds.map (fun d => some (.ok d)) ++ List.replicate k none, srcCursor []) := by
  induction ds with
  | nil =>
    simpa using cursorTake_no_more (srcCursor []) rfl k f
  | cons d ds2 ih =>
    have hd : wfD d = true := h d (List.mem_cons_self d ds2)
    have htl : ∀ x ∈ ds2, wfD x = true := fun x hx => h x (List.mem_cons_of_mem d hx)
    have harith : (d :: ds2).length + k = (ds2.length + k) + 1 := by
      simp
      omega
    rw [harith, cursorTake, srcCursor_step d ds2 hd f]
    simp [ih htl]

/-- Witness for claim C6 at a concrete two-document source. -/
theorem claim_C6_witness :
    cursorTake 1 3 (srcCursor [BsonDoc.cons [97] (.int32 7) .nil,
        BsonDoc.cons [98] (.boolean true) .nil])
      = ([BsonDoc.cons [97] (.int32 7) .nil,
          BsonDoc.cons [98] (.boolean true) .nil].map (fun d => some (.ok d))
            ++ List.replicate 1 none, srcCursor []) := by
  have h := claim_C6_cursor_exhaustion [BsonDoc.cons [97] (.int32 7) .nil,
      BsonDoc.cons [98] (.boolean true) .nil] (by decide) 1 0
  simpa using h

/-- Claim C8. When the driver collaborator signals that no more data is
available and the cursor is not tailing, next() returns None without
requesting a further document from the driver: the call trace is just
the more() check. -/
theorem claim_C8_no_more_returns_none (c : Cursor) (f : Nat)
    (hmore : c.more = false) (htail : c.tailing = false) :
    Cursor.next (f + 1) c = some (none, c, [.more]) :=
  cursor_next_no_more c f hmore

/-- Witness for claim C8 on a concrete exhausted cursor. -/
theorem claim_C8_witness :
    Cursor.next 1 ⟨⟨[], none, false⟩, false, 0⟩
      = some (none, ⟨⟨[], none, false⟩, false, 0⟩, [.more]) :=
  claim_C8_no_more_returns_none ⟨⟨[], none, false⟩, false, 0⟩ 0 rfl rfl

/-! ## Helper lemmas about the tailing cursor -/

/-- Every value a pull step returns is Some: no return site of the loop
body of TailingCursor::next produces None. -/
theorem tailingPull_ret_some (cf : Nat) (s : TailingCursor) (c : Cursor)
    (v : Option (MResult BsonDoc)) (s1 : TailingCursor)
    (h : tailingPull cf s c = .ret v s1) : v ≠ none := by
  rw [tailingPull] at h
  cases hn : Cursor.next cf c with
  | none => rw [hn] at h; simp at h
  | some p =>
    obtain ⟨v0, c1, t⟩ := p
    rw [hn] at h
    simp only at h
    cases v0 with
    | none => simp at h
    | some r =>
      cases r with
      | ok d =>
        split at h <;> simp_all
        all_goals exact fun hh => by simp [hh] at h
      | error e =>
        split at h
        any_goals simp_all
        all_goals try (split at h <;> simp_all)
        all_goals exact fun hh => by simp [hh] at h

/-- Every value the loop body returns is Some. -/
theorem tailingBody_ret_some (env : TailEnv) (cf : Nat) (s : TailingCursor)
    (v : Option (MResult BsonDoc)) (s1 : TailingCursor)
    (h : tailingBody env cf s = .ret v s1) : v ≠ none := by
  rw [tailingBody] at h
  cases hc : s.cursor with
  | some c =>
    rw [hc] at h
    exact tailingPull_ret_some cf s c v s1 h
  | none =>
    rw [hc] at h
    simp only at h
    cases hls : s.last_seen_id with
    | none =>
      rw [hls] at h
      simp only at h
      cases he : env.find s.query s.find_options s.find_calls with
      | error e =>
        rw [he] at h
        simp only [TailStep.ret.injEq] at h
        rw [← h.1]
        simp
      | ok drv =>
        rw [he] at h
        exact tailingPull_ret_some _ _ _ v s1 h
    | some id =>
      rw [hls] at h
      simp only at h
      cases he : env.find
          (s.query.insert_bson oidKey (.document (.cons gtKey (.objectId id) .nil)))
          s.find_options s.find_calls with
      | error e =>
        rw [he] at h
        simp only [TailStep.ret.injEq] at h
        rw [← h.1]
        simp
      | ok drv =>
        rw [he] at h
        exact tailingPull_ret_some _ _ _ v s1 h

/-- A tailing environment whose every find call returns a cursor that is
immediately at end of stream. -/
def emptyTailEnv : TailEnv := ⟨fun _ _ _ => .ok ⟨[], none, false⟩⟩

/-- Claim C9. TailingCursor::next never returns None: every returned
value is Some; when the inner cursor reports end of stream without an
error the loop unconditionally increments the retry counter and discards
the inner cursor, with no max_retries check; and against a source whose
rebuilt cursors are always immediately at end of stream the iteration
loops forever (it exhausts any recursion budget instead of returning). -/
theorem claim_C9_tailing_never_none :
    (∀ (env : TailEnv) (f : Nat) (s : TailingCursor) (v : Option (MResult BsonDoc))
        (s1 : TailingCursor), TailingCursor.next env f s = some (v, s1) → v ≠ none) ∧
    (∀ (env : TailEnv) (cf : Nat) (s : TailingCursor) (c c1 : Cursor) (t : List DCall),
        s.cursor = some c → Cursor.next cf c = some (none, c1, t) →
        tailingBody env cf s
          = .again { s with cursor := none, retry_count := s.retry_count + 1 }) ∧
    (∀ (f : Nat) (s : TailingCursor),
        s.cursor = none ∨ (∃ c, s.cursor = some c ∧ c.more = false) →
        TailingCursor.next emptyTailEnv f s = none) := by
  refine ⟨?_, ?_, ?_⟩
  · intro env f
    induction f with
    | zero =>
      intro s v s1 h
      simp [TailingCursor.next] at h
    | succ f ih =>
      intro s v s1 h
      rw [TailingCursor.next] at h
      cases hb : tailingBody env (f + 1) s with
      | ret v0 s0 =>
        rw [hb] at h
        simp only [Option.some.injEq, Prod.mk.injEq] at h
        rw [← h.1]
        exact tailingBody_ret_some env (f + 1) s v0 s0 hb
      | again s0 =>
        rw [hb] at h
        exact ih s0 v s1 h
      | fuelOut =>
        rw [hb] at h
        simp at h
  · intro env cf s c c1 t hc hn
    rw [tailingBody, hc]
    simp only
    rw [tailingPull, hn]
  · intro f
    induction f with
    | zero =>
      intro s hs
      simp [TailingCursor.next]
    | succ f ih =>
      intro s hs
      rw [TailingCursor.next]
      rcases hs with hc | ⟨c, hc, hm⟩
      · rw [tailingBody, hc]
        cases hls : s.last_seen_id with
        | none =>
          simp only [emptyTailEnv]
          rw [tailingPull,
            cursor_next_no_more ⟨⟨[], none, false⟩, true, s.tail_options.wait_duration⟩ f rfl]
          simp only
          exact ih _ (Or.inl rfl)
        | some id =>
          simp only [emptyTailEnv]
          rw [tailingPull,
            cursor_next_no_more ⟨⟨[], none, false⟩, true, s.tail_options.wait_duration⟩ f rfl]
          simp only
          exact ih _ (Or.inl rfl)
      · rw [tailingBody, hc]
        simp only
        rw [tailingPull, cursor_next_no_more c f hm]
        simp only
        exact ih _ (Or.inl rfl)

/-- Pulling from a driver cursor whose next round fails with a
substantive error yields that error. -/
theorem cursor_next_err (er : BsoncError) (rest : List DriverRound)
    (le : Option BsoncError) (al tl : Bool) (w f : Nat) :
    Cursor.next (f + 1) ⟨⟨errRound er :: rest, le, al⟩, tl, w⟩
      = some (some (.error (.bsonc er)), ⟨⟨rest, some er, false⟩, tl, w⟩,
          [.more, .next, .error]) := by
  simp [Cursor.next, cursorBody, Cursor.more, DriverState.moreSig, errRound,
    DriverState.nextCall, Cursor.error, Cursor.is_alive]

/-- A tailing environment whose k-th find call returns a cursor that
immediately fails with the k-th error. -/
def errEnv (e : Nat → BsoncError) : TailEnv :=
  ⟨fun _ _ k => .ok ⟨[errRound (e k)], none, true⟩⟩

/-- Running the tailing cursor against consecutive errors: from a state
with retry counter j, find counter j and d retries still allowed, the
error of the (j + d)-th find call is surfaced. -/
theorem tailing_err_run (e : Nat → BsoncError) :
    ∀ (d j fuel : Nat) (s : TailingCursor),
      s.cursor = none → s.retry_count = j → s.find_calls = j →
      s.tail_options.max_retries = j + d → d + 1 ≤ fuel →
      ∃ s1, TailingCursor.next (errEnv e) fuel s
        = some (some (.error (.bsonc (e (j + d)))), s1) := by
  intro d
  induction d with
  | zero =>
    intro j fuel s hc hr hf hm hfuel
    match fuel, hfuel with
    | f + 1, _ =>
      rw [TailingCursor.next, tailingBody, hc]
      cases hls : s.last_seen_id with
      | none =>
        simp only [errEnv]
        rw [tailingPull, hf, cursor_next_err (e j) [] none true true
          s.tail_options.wait_duration f]
        simp only
        rw [if_pos (by omega)]
        exact ⟨_, rfl⟩
      | some id =>
        simp only [errEnv]
        rw [tailingPull, hf, cursor_next_err (e j) [] none true true
          s.tail_options.wait_duration f]
        simp only
        rw [if_pos (by omega)]
        exact ⟨_, rfl⟩
  | succ d ihd =>
    intro j fuel s hc hr hf hm hfuel
    match fuel, hfuel with
    | f + 1, _ =>
      rw [TailingCursor.next, tailingBody, hc]
      cases hls : s.last_seen_id with
      | none =>
        simp only [errEnv]
        rw [tailingPull, hf, cursor_next_err (e j) [] none true true
          s.tail_options.wait_duration f]
        simp only
        rw [if_neg (by omega)]
        simp only
        have harith : j + (d + 1) = j + 1 + d := by omega
        rw [harith]
        refine ihd (j + 1) f _ rfl ?_ rfl ?_ ?_
        · rw [hr]
        · rw [hm]
          omega
        · omega
      | some id =>
        simp only [errEnv]
        rw [tailingPull, hf, cursor_next_err (e j) [] none true true
          s.tail_options.wait_duration f]
        simp only
        rw [if_neg (by omega)]
        simp only
        have harith : j + (d + 1) = j + 1 + d := by omega
        rw [harith]
        refine ihd (j + 1) f _ rfl ?_ rfl ?_ ?_
        · rw [hr]
        · rw [hm]
          omega
        · omega

/-- Claim C2. A tailing cursor with max_retries = R that sees R + 1
consecutive error results surfaces the (R+1)-th error (the error of find
call R, counting from zero) instead of retrying; and whenever the inner
cursor yields an item successfully, the retry counter resets to zero. -/
theorem claim_C2_retry_bound :
    (∀ (e : Nat → BsoncError) (q : BsonDoc) (fo : CommandAndFindOptions) (w R fuel : Nat),
      R + 1 ≤ fuel →
      ∃ s1, TailingCursor.next (errEnv e) fuel (TailingCursor.new q fo ⟨w, R⟩)
        = some (some (.error (.bsonc (e R))), s1)) ∧
    (∀ (env : TailEnv) (cf : Nat) (s : TailingCursor) (c c1 : Cursor) (t : List DCall)
        (d : BsonDoc), s.cursor = some c →
      Cursor.next cf c = some (some (.ok d), c1, t) →
      tailingBody env cf s = .ret (some (.ok d)) { s with cursor := some c1, retry_count := 0 }) := by
  constructor
  · intro e q fo w R fuel hfuel
    have h := tailing_err_run e R 0 fuel (TailingCursor.new q fo ⟨w, R⟩) rfl rfl rfl
      (by show R = 0 + R; omega) (by omega)
    rwa [Nat.zero_add] at h
  · intro env cf s c c1 t d hc hn
    rw [tailingBody, hc]
    simp only
    rw [tailingPull, hn]

/-- Shared concrete ingredients for the tailing-cursor witnesses. -/
def wDoc : BsonDoc := .cons [119] (.int32 1) .nil

def wFindOpts : CommandAndFindOptions := ⟨⟨[]⟩, 0, 0, 0, none⟩

def wTailEnv : TailEnv := ⟨fun _ _ _ => .ok ⟨[okRound wDoc], none, true⟩⟩

def wTailInit : TailingCursor := TailingCursor.new .nil wFindOpts ⟨0, 5⟩

/-- An inner cursor that is immediately at end of stream. -/
def wExhCursor : Cursor := ⟨⟨[], none, false⟩, true, 0⟩

/-- An inner cursor whose next pull succeeds with wDoc. -/
def wOkCursor : Cursor := ⟨⟨[okRound wDoc], none, true⟩, true, 0⟩

/-- Witness for claim C9 at concrete inputs. -/
theorem claim_C9_witness :
    ((some (.ok wDoc) : Option (MResult BsonDoc)) ≠ none) ∧
    (tailingBody wTailEnv 1 { wTailInit with cursor := some wExhCursor }
      = .again { { wTailInit with cursor := some wExhCursor } with
          cursor := none,
          retry_count := { wTailInit with cursor := some wExhCursor }.retry_count + 1 }) ∧
    (TailingCursor.next emptyTailEnv 5 wTailInit = none) := by
  refine ⟨?_, ?_, ?_⟩
  · exact claim_C9_tailing_never_none.1 wTailEnv 2 wTailInit _ _ rfl
  · exact claim_C9_tailing_never_none.2.1 wTailEnv 1 _ wExhCursor wExhCursor [.more] rfl rfl
  · exact claim_C9_tailing_never_none.2.2 5 wTailInit (Or.inl rfl)

/-- Witness for claim C2 at concrete inputs. -/
theorem claim_C2_witness :
    (∃ s1, TailingCursor.next (errEnv (fun k => ⟨k, 0, []⟩)) 2
        (TailingCursor.new .nil wFindOpts ⟨0, 1⟩)
      = some (some (.error (.bsonc ⟨1, 0, []⟩)), s1)) ∧
    (tailingBody wTailEnv 1 { wTailInit with cursor := some wOkCursor }
      = .ret (some (.ok wDoc)) { { wTailInit with cursor := some wOkCursor } with
          cursor := some ⟨⟨[], none, true⟩, true, 0⟩, retry_count := 0 }) := by
  constructor
  · exact claim_C2_retry_bound.1 (fun k => ⟨k, 0, []⟩) .nil wFindOpts 0 1 2 (by omega)
  · exact claim_C2_retry_bound.2 wTailEnv 1 _ wOkCursor ⟨⟨[], none, true⟩, true, 0⟩
      [.more, .next, .error] wDoc rfl (by rfl)

/-! ## Claim C1: the failing run of the tailing resume logic -/

/-- The single stored item, carrying its ObjectId. -/
def tailDocC1 : BsonDoc := .cons oidKey (.objectId [1, 2, 3, 4, 5, 6, 7, 8, 9, 10, 11, 12]) .nil

/-- A collection that answers every find call (the query is ignored, as a
server would for the unfiltered query the code sends) with a cursor that
yields the stored item once and then reaches end of stream. -/
def tailEnvC1 : TailEnv := ⟨fun _ _ _ => .ok ⟨[okRound tailDocC1, deadRound], none, true⟩⟩

def tailInitC1 : TailingCursor := TailingCursor.new .nil wFindOpts ⟨0, 5⟩

/-- Claim C1, evaluated at the failing input: the first next() yields the
item, but the state records no last-seen id and the query is left
unchanged, so after the inner cursor ends and is rebuilt the second
next() re-yields the very same item (whose id equals the last seen id,
hence is not greater than it), contradicting the resume guarantee. -/
theorem claim_C1_resume_never_records_last_seen :
    ∃ s1 s2,
      TailingCursor.next tailEnvC1 3 tailInitC1 = some (some (.ok tailDocC1), s1) ∧
      s1.last_seen_id = none ∧
      s1.query = BsonDoc.nil ∧
      TailingCursor.next tailEnvC1 3 s1 = some (some (.ok tailDocC1), s2) ∧
      s2.query = BsonDoc.nil ∧
      tailDocC1.get oidKey = some (.objectId [1, 2, 3, 4, 5, 6, 7, 8, 9, 10, 11, 12]) := by
  exact ⟨_, _, rfl, rfl, rfl, rfl, rfl, rfl⟩

/-! ## Helper lemmas about batch pagination -/

/-- Build a BSON array from a list of documents. -/
def docsToArr : List BsonDoc → BsonArr
  | [] => .nil
  | d :: rest => .cons (.document d) (docsToArr rest)

/-- Pulling from a driver cursor whose next round succeeds with an
encoded well-formed document yields that document. -/
theorem cursor_next_ok (c : Cursor) (E : BsonDoc) (rest : List DriverRound) (f : Nat)
    (hwf : wfD E = true) (hc : c.inner.rounds = okRound E :: rest) :
    Cursor.next (f + 1) c
      = some (some (.ok E), { c with inner := ⟨rest, none, true⟩ },
          [.more, .next, .error]) := by
  simp [Cursor.next, cursorBody, Cursor.more, DriverState.moreSig, hc, okRound,
    DriverState.nextCall, Cursor.error, Cursor.is_alive, Bsonc.as_document,
    decode_encode E hwf]

theorem arrToDocs_docsToArr (docs : List BsonDoc) :
    arrToDocs (docsToArr docs) = some docs := by
  induction docs with
  | nil => rfl
  | cons d rest ih => simp [docsToArr, arrToDocs, ih]

theorem wfA_docsToArr (docs : List BsonDoc) (h : ∀ d ∈ docs, wfD d = true) :
    wfA (docsToArr docs) = true := by
  induction docs with
  | nil => rfl
  | cons d rest ih =>
    have hd := h d (List.mem_cons_self d rest)
    have htl : ∀ x ∈ rest, wfD x = true := fun x hx => h x (List.mem_cons_of_mem d hx)
    simp [docsToArr, wfA, wfV, hd, ih htl]

/-- A batch envelope document: cursor.id plus one batch field. -/
def envelopeDoc (id : Int) (key : List Nat) (docs : List BsonDoc) : BsonDoc :=
  .cons cursorKey
    (.document (.cons idKey (.int64 id) (.cons key (.array (docsToArr docs)) .nil))) .nil

theorem wfD_envelope_first (id : Int) (docs : List BsonDoc)
    (hid1 : -(2 ^ 63) ≤ id) (hid2 : id < 2 ^ 63) (h : ∀ d ∈ docs, wfD d = true) :
    wfD (envelopeDoc id firstBatchKey docs) = true := by
  have hck : keyOk cursorKey = true := by decide
  have hik : keyOk idKey = true := by decide
  have hfk : keyOk firstBatchKey = true := by decide
  simp [envelopeDoc, wfD, wfV, hck, hik, hfk, wfA_docsToArr docs h]
  exact ⟨hid1, hid2⟩

theorem wfD_envelope_next (id : Int) (docs : List BsonDoc)
    (hid1 : -(2 ^ 63) ≤ id) (hid2 : id < 2 ^ 63) (h : ∀ d ∈ docs, wfD d = true) :
    wfD (envelopeDoc id nextBatchKey docs) = true := by
  have hck : keyOk cursorKey = true := by decide
  have hik : keyOk idKey = true := by decide
  have hnk : keyOk nextBatchKey = true := by decide
  simp [envelopeDoc, wfD, wfV, hck, hik, hnk, wfA_docsToArr docs h]
  exact ⟨hid1, hid2⟩

theorem batch_to_array_envelope_first (id : Int) (docs : List BsonDoc) :
    batch_to_array (envelopeDoc id firstBatchKey docs) = .ok (some docs, some id) := by
  simp [batch_to_array, envelopeDoc, BsonDoc.get, parseI64, parseBatchField,
    arrToDocs_docsToArr, cursorKey, idKey, firstBatchKey, nextBatchKey]

theorem batch_to_array_envelope_next (id : Int) (docs : List BsonDoc) :
    batch_to_array (envelopeDoc id nextBatchKey docs) = .ok (some docs, some id) := by
  simp [batch_to_array, envelopeDoc, BsonDoc.get, parseI64, parseBatchField,
    arrToDocs_docsToArr, cursorKey, idKey, firstBatchKey, nextBatchKey]

/-- Step (1): a non-empty local queue is popped with no getMore. -/
theorem batch_next_pop (env : BatchEnv) (cf : Nat) (s : BatchCursor) (d : BsonDoc)
    (q : List BsonDoc) (h : s.documents = some (d :: q)) :
    BatchCursor.next env cf s = some (some (.ok d), { s with documents := some q }, []) := by
  simp [BatchCursor.next, get_next_doc, h]

/-- Replacing the queue field by its own value is the identity. -/
theorem batch_set_docs_self (s : BatchCursor) (q : List BsonDoc)
    (h : s.documents = some q) : { s with documents := some q } = s := by
  cases s
  simp_all

/-- Draining the local queue: the first length-many calls pop the queued
documents in order with no getMore, then iteration continues from the
empty-queue state. -/
theorem batchTake_drain (env : BatchEnv) (cf : Nat) (q : List BsonDoc) :
    ∀ (s : BatchCursor) (m : Nat), s.documents = some q →
      batchTake env cf (q.length + m) s
        = ((q.map fun d => some (.ok d)) ++ (batchTake env cf m { s with documents := some [] }).1,
           (batchTake env cf m { s with documents := some [] }).2.1,
           (batchTake env cf m { s with documents := some [] }).2.2) := by
  induction q with
  | nil =>
    intro s m h
    rw [batch_set_docs_self s [] h]
    simp
  | cons d q2 ih =>
    intro s m h
    have harith : (d :: q2).length + m = (q2.length + m) + 1 := by
      simp
      omega
    rw [harith, batchTake, batch_next_pop env cf s d q2 h]
    have hq2 : ({ s with documents := some q2 } : BatchCursor).documents = some q2 := rfl
    simp only [ih { s with documents := some q2 } m hq2]
    simp

/-- Pulling from a driver cursor whose next round fails with a
substantive error surfaces that error (general round form). -/
theorem cursor_next_err_round (c : Cursor) (r : DriverRound) (rest : List DriverRound)
    (e : BsoncError) (f : Nat) (hc : c.inner.rounds = r :: rest) (hm : r.more = true)
    (hs : r.success = false) (he : r.error = some e) :
    Cursor.next (f + 1) c
      = some (some (.error (.bsonc e)), { c with inner := ⟨rest, some e, r.aliveAfter⟩ },
          [.more, .next, .error]) := by
  simp [Cursor.next, cursorBody, Cursor.more, DriverState.moreSig, hc, hm, hs, he,
    DriverState.nextCall, Cursor.error, Cursor.is_alive]

/-- Claim C10. When the local queue is empty and the inner cursor yields
an error result, BatchCursor::next silently discards the error: the call
is the getMore step applied to the state with the error consumed (and the
error value is returned to the caller by neither step); with no cursor id
on file the call returns None. -/
theorem claim_C10_batch_swallows_errors (env : BatchEnv) (f : Nat) (s : BatchCursor)
    (r : DriverRound) (rest : List DriverRound) (e : BsoncError)
    (hdoc : s.documents = none ∨ s.documents = some [])
    (hc : s.cursor.inner.rounds = r :: rest)
    (hm : r.more = true) (hs : r.success = false) (he : r.error = some e) :
    BatchCursor.next env (f + 1) s
      = getMoreStep env (f + 1)
          { s with cursor := { s.cursor with inner := ⟨rest, some e, r.aliveAfter⟩ } } ∧
    (s.cursor_id = none →
      BatchCursor.next env (f + 1) s
        = some (none,
            { s with cursor := { s.cursor with inner := ⟨rest, some e, r.aliveAfter⟩ } }, [])) := by
  have h1 : get_next_doc s = (none, s) := by
    rcases hdoc with h | h <;> simp [get_next_doc, h]
  have h2 : BatchCursor.next env (f + 1) s
      = getMoreStep env (f + 1)
          { s with cursor := { s.cursor with inner := ⟨rest, some e, r.aliveAfter⟩ } } := by
    rw [BatchCursor.next]
    simp only [h1]
    rw [get_cursor_next, cursor_next_err_round s.cursor r rest e f hc hm hs he]
  refine ⟨h2, fun hid => ?_⟩
  rw [h2, getMoreStep]
  simp [hid]

/-- Witness state for claims C10 and C5: empty queue, exhausted or
erroring inner cursor. -/
def wBatchEnv : BatchEnv := ⟨fun _ _ => .error (.bsonc ⟨1, 2, []⟩)⟩

def wBatchErrState : BatchCursor :=
  ⟨⟨⟨[errRound ⟨3, 4, []⟩], none, true⟩, false, 0⟩, [99], none, some [], 0⟩

/-- Witness for claim C10 at a concrete state. -/
theorem claim_C10_witness :
    BatchCursor.next wBatchEnv 1 wBatchErrState
      = getMoreStep wBatchEnv 1
          { wBatchErrState with cursor :=
              { wBatchErrState.cursor with inner := ⟨[], some ⟨3, 4, []⟩, false⟩ } } ∧
    BatchCursor.next wBatchEnv 1 wBatchErrState
      = some (none,
          { wBatchErrState with cursor :=
              { wBatchErrState.cursor with inner := ⟨[], some ⟨3, 4, []⟩, false⟩ } }, []) := by
  have h := claim_C10_batch_swallows_errors wBatchEnv 0 wBatchErrState
    (errRound ⟨3, 4, []⟩) [] ⟨3, 4, []⟩ (Or.inr rfl) rfl rfl rfl rfl
  exact ⟨h.1, h.2 rfl⟩

/-! ## Claim C5: getMore is issued even for cursor id 0 -/

/-- Concrete state: queue empty, inner cursor exhausted, the server has
reported cursor id 0. -/
def c5State : BatchCursor := ⟨⟨⟨[], none, false⟩, false, 0⟩, [99], some 0, some [], 0⟩

/-- Counterexample to claim C5 as stated: from a state whose most recent
batch envelope reported id 0 and whose queue is empty, next() does issue
a follow-up getMore request carrying the id 0 (the trace is nonempty). -/
theorem claim_C5_counterexample :
    BatchCursor.next wBatchEnv 1 c5State
      = some (none, { c5State with cmd_calls := 1 }, [.getMore 0 [99]]) := rfl

/-- Claim C5 as amended: with cursor id 0 on file, an empty queue and an
exhausted inner cursor, next() terminates the call with None, but only
after issuing a getMore request that carries the id 0 (the code has no
special case suppressing the request for id 0); None is returned because
the server rejects that command. -/
theorem claim_C5_amended_id_zero (env : BatchEnv) (f : Nat) (s : BatchCursor) (e : MongoError)
    (hdoc : s.documents = none ∨ s.documents = some [])
    (hc : s.cursor.inner.rounds = [])
    (hid : s.cursor_id = some 0)
    (hcmd : env.command
        (.cons getMoreKey (.int64 0) (.cons collectionKey (.string s.coll_name) .nil))
        s.cmd_calls = .error e) :
    BatchCursor.next env (f + 1) s
      = some (none, { s with cmd_calls := s.cmd_calls + 1 }, [.getMore 0 s.coll_name]) := by
  have h1 : get_next_doc s = (none, s) := by
    rcases hdoc with h | h <;> simp [get_next_doc, h]
  have hmore : s.cursor.more = false := by
    simp [Cursor.more, DriverState.moreSig, hc]
  rw [BatchCursor.next]
  simp only [h1]
  rw [get_cursor_next, cursor_next_no_more s.cursor f hmore]
  simp only
  rw [getMoreStep]
  simp [hid, hcmd]

/-- Witness for the amended claim C5 at the concrete state. -/
theorem claim_C5_witness :
    BatchCursor.next wBatchEnv 1 c5State
      = some (none, { c5State with cmd_calls := c5State.cmd_calls + 1 },
          [.getMore 0 c5State.coll_name]) :=
  claim_C5_amended_id_zero wBatchEnv 0 c5State (.bsonc ⟨1, 2, []⟩)
    (Or.inr rfl) rfl rfl rfl

/-! ## The two-batch scenario for batch pagination -/

/-- Initial batch cursor: the inner cursor will yield one reply document,
the firstBatch envelope. -/
def batchInit (i1 : Int) (bdocs : List BsonDoc) (coll : List Nat) : BatchCursor :=
  ⟨⟨⟨[okRound (envelopeDoc i1 firstBatchKey bdocs)], none, true⟩, false, 0⟩,
    coll, none, none, 0⟩

/-- State after the first batch is loaded and fully drained. -/
def batchMid (i1 : Int) (coll : List Nat) : BatchCursor :=
  ⟨⟨⟨[], none, true⟩, false, 0⟩, coll, some i1, some [], 0⟩

/-- State after the getMore reply (nextBatch envelope with id 0) is
loaded, with q documents still queued. -/
def batchAfter2 (q : List BsonDoc) (coll : List Nat) : BatchCursor :=
  ⟨⟨⟨[], none, true⟩, false, 0⟩, coll, some 0, some q, 1⟩

/-- The database collaborator of the scenario: the first command returns
a cursor over the nextBatch envelope (id 0), every later command fails
(as a server rejects a getMore with id 0). -/
def batchEnvTwo (cdocs : List BsonDoc) (e : BsoncError) : BatchEnv :=
  ⟨fun _ k =>
    if k = 0 then .ok ⟨[okRound (envelopeDoc 0 nextBatchKey cdocs)], none, true⟩
    else .error (.bsonc e)⟩

/-- Call one, nonempty first batch: the envelope is consumed, the queue
loaded, the cursor id recorded and the first document popped; no getMore
is issued. -/
theorem batch_call1_cons (env : BatchEnv) (i1 : Int) (d : BsonDoc) (q : List BsonDoc)
    (coll : List Nat) (f : Nat)
    (hwf : wfD (envelopeDoc i1 firstBatchKey (d :: q)) = true) :
    BatchCursor.next env (f + 1) (batchInit i1 (d :: q) coll)
      = some (some (.ok d), ⟨⟨⟨[], none, true⟩, false, 0⟩, coll, some i1, some q, 0⟩, []) := by
  rw [BatchCursor.next]
  simp only [batchInit, get_next_doc]
  rw [get_cursor_next, cursor_next_ok _ _ [] f hwf rfl]
  simp [batch_to_array_envelope_first, get_next_doc]

/-- Call one, empty first batch: the envelope is consumed, the queue is
loaded empty, and the call proceeds directly to the getMore step. -/
theorem batch_call1_nil (env : BatchEnv) (i1 : Int) (coll : List Nat) (f : Nat)
    (hwf : wfD (envelopeDoc i1 firstBatchKey []) = true) :
    BatchCursor.next env (f + 1) (batchInit i1 [] coll)
      = getMoreStep env (f + 1) (batchMid i1 coll) := by
  rw [BatchCursor.next]
  simp only [batchInit, get_next_doc]
  rw [get_cursor_next, cursor_next_ok _ _ [] f hwf rfl]
  simp [batch_to_array_envelope_first, get_next_doc, batchMid]

/-- A call on the drained-first-batch state goes straight to the getMore
step. -/
theorem batch_next_mid (env : BatchEnv) (i1 : Int) (coll : List Nat) (f : Nat) :
    BatchCursor.next env (f + 1) (batchMid i1 coll)
      = getMoreStep env (f + 1) (batchMid i1 coll) := by
  rw [BatchCursor.next]
  simp only [batchMid, get_next_doc]
  rw [get_cursor_next, cursor_next_no_more ⟨⟨[], none, true⟩, false, 0⟩ f rfl]

/-- The first getMore: carries the recorded id, loads the nextBatch
envelope, records id 0 and pops the first second-batch document. -/
theorem getMore_first_cons (cq : List BsonDoc) (c0 : BsonDoc) (e : BsoncError)
    (i1 : Int) (coll : List Nat) (f : Nat)
    (hwf : wfD (envelopeDoc 0 nextBatchKey (c0 :: cq)) = true) :
    getMoreStep (batchEnvTwo (c0 :: cq) e) (f + 1) (batchMid i1 coll)
      = some (some (.ok c0), batchAfter2 cq coll, [.getMore i1 coll]) := by
  rw [getMoreStep]
  simp only [batchMid, batchEnvTwo, reduceIte]
  rw [get_cursor_next, cursor_next_ok _ _ [] f hwf rfl]
  simp [batch_to_array_envelope_next, get_next_doc, batchAfter2]

/-- The first getMore with an empty second batch: the call returns None
after issuing the getMore. -/
theorem getMore_first_nil (e : BsoncError) (i1 : Int) (coll : List Nat) (f : Nat)
    (hwf : wfD (envelopeDoc 0 nextBatchKey []) = true) :
    getMoreStep (batchEnvTwo [] e) (f + 1) (batchMid i1 coll)
      = some (none, batchAfter2 [] coll, [.getMore i1 coll]) := by
  rw [getMoreStep]
  simp only [batchMid, batchEnvTwo, reduceIte]
  rw [get_cursor_next, cursor_next_ok _ _ [] f hwf rfl]
  simp [batch_to_array_envelope_next, get_next_doc, batchAfter2]

/-- A call on an exhausted state whose getMore command fails returns
None (the command error is swallowed by the if-let). -/
theorem batch_next_gm_fails (env : BatchEnv) (f : Nat) (s : BatchCursor)
    (cid : Int) (e : MongoError)
    (hdoc : s.documents = none ∨ s.documents = some [])
    (hc : s.cursor.inner.rounds = [])
    (hid : s.cursor_id = some cid)
    (hcmd : env.command
        (.cons getMoreKey (.int64 cid) (.cons collectionKey (.string s.coll_name) .nil))
        s.cmd_calls = .error e) :
    BatchCursor.next env (f + 1) s
      = some (none, { s with cmd_calls := s.cmd_calls + 1 }, [.getMore cid s.coll_name]) := by
  have h1 : get_next_doc s = (none, s) := by
    rcases hdoc with h | h <;> simp [get_next_doc, h]
  have hmore : s.cursor.more = false := by
    simp [Cursor.more, DriverState.moreSig, hc]
  rw [BatchCursor.next]
  simp only [h1]
  rw [get_cursor_next, cursor_next_no_more s.cursor f hmore]
  simp only
  rw [getMoreStep]
  simp [hid, hcmd]

/-- After both batches are exhausted every call returns None (each one
issuing a failing getMore). -/
theorem batchTake_end (cdocs : List BsonDoc) (e : BsoncError) (f : Nat) (cid : Int) :
    ∀ (m : Nat) (s : BatchCursor),
      s.documents = some [] → s.cursor.inner.rounds = [] →
      s.cursor_id = some cid → 1 ≤ s.cmd_calls →
      (batchTake (batchEnvTwo cdocs e) (f + 1) m s).1 = List.replicate m none := by
  intro m
  induction m with
  | zero => intro s _ _ _ _; rfl
  | succ m ih =>
    intro s hdoc hc hid hcmd
    have hcall := batch_next_gm_fails (batchEnvTwo cdocs e) f s cid (.bsonc e)
      (Or.inr hdoc) hc hid (by simp [batchEnvTwo]; omega)
    rw [batchTake, hcall]
    simp only [List.replicate_succ]
    have := ih { s with cmd_calls := s.cmd_calls + 1 } hdoc hc hid (by simp)
    simp [this]

/-- From the drained-first-batch state, the next calls yield the whole
second batch (fetched by one getMore) and then Nones. -/
theorem batchTake_from_mid (cdocs : List BsonDoc) (e : BsoncError) (i1 : Int)
    (coll : List Nat) (f : Nat)
    (hwf2 : wfD (envelopeDoc 0 nextBatchKey cdocs) = true) :
    ∀ k2, (batchTake (batchEnvTwo cdocs e) (f + 1) (cdocs.length + k2) (batchMid i1 coll)).1
      = (cdocs.map fun d => some (.ok d)) ++ List.replicate k2 none := by
  intro k2
  cases cdocs with
  | nil =>
    cases k2 with
    | zero => rfl
    | succ m =>
      rw [show ([] : List BsonDoc).length + (m + 1) = m + 1 by simp]
      rw [batchTake, batch_next_mid, getMore_first_nil e i1 coll f hwf2]
      simp only [List.nil_append, List.map_nil, List.replicate_succ]
      have hend := batchTake_end [] e f 0 m (batchAfter2 [] coll) rfl rfl rfl (by simp [batchAfter2])
      simp [hend]
  | cons c0 cq =>
    rw [show (c0 :: cq).length + k2 = (cq.length + k2) + 1 by simp; omega]
    rw [batchTake, batch_next_mid, getMore_first_cons cq c0 e i1 coll f hwf2]
    simp only
    have hdrain := batchTake_drain (batchEnvTwo (c0 :: cq) e) (f + 1) cq
      (batchAfter2 cq coll) k2 rfl
    have hmid : ({ batchAfter2 cq coll with documents := some [] } : BatchCursor)
        = batchAfter2 [] coll := by
      simp [batchAfter2]
    rw [hmid] at hdrain
    have hend := batchTake_end (c0 :: cq) e f 0 k2 (batchAfter2 [] coll) rfl rfl rfl
      (by simp [batchAfter2])
    simp [hdrain, hend]

/-- Claim C4. In the two-batch scenario (first batch of B documents with
a nonzero-id envelope, second batch of C documents returned by getMore),
the first B calls pop the first batch in order and issue no getMore
request, and over B + C + k calls the caller observes exactly the B
first-batch documents followed by the C second-batch documents, then
only None: B + C documents in total, each exactly once. -/
theorem claim_C4_batch_pagination (bdocs cdocs : List BsonDoc) (coll : List Nat)
    (i1 : Int) (e : BsoncError) (f k : Nat)
    (hb : ∀ d ∈ bdocs, wfD d = true) (hcd : ∀ d ∈ cdocs, wfD d = true)
    (hi1 : -(2 ^ 63) ≤ i1) (hi2 : i1 < 2 ^ 63) :
    ((batchTake (batchEnvTwo cdocs e) (f + 1) bdocs.length (batchInit i1 bdocs coll)).1
        = bdocs.map (fun d => some (.ok d)) ∧
      (batchTake (batchEnvTwo cdocs e) (f + 1) bdocs.length (batchInit i1 bdocs coll)).2.2
        = []) ∧
    (batchTake (batchEnvTwo cdocs e) (f + 1) (bdocs.length + (cdocs.length + k))
          (batchInit i1 bdocs coll)).1
      = ((bdocs ++ cdocs).map fun d => some (.ok d)) ++ List.replicate k none := by
  have hwf1 : wfD (envelopeDoc i1 firstBatchKey bdocs) = true :=
    wfD_envelope_first i1 bdocs hi1 hi2 hb
  have hwf2 : wfD (envelopeDoc 0 nextBatchKey cdocs) = true :=
    wfD_envelope_next 0 cdocs (by norm_num) (by norm_num) hcd
  cases bdocs with
  | nil =>
    refine ⟨⟨rfl, rfl⟩, ?_⟩
    cases hck : cdocs.length + k with
    | zero =>
      have hcd0 : cdocs = [] := by
        cases cdocs with
        | nil => rfl
        | cons a b => simp at hck
      have hk0 : k = 0 := by omega
      subst hcd0
      subst hk0
      rfl
    | succ m =>
      rw [show ([] : List BsonDoc).length + (m + 1) = m + 1 by simp]
      have hswap : (batchTake (batchEnvTwo cdocs e) (f + 1) (m + 1) (batchInit i1 [] coll)).1
          = (batchTake (batchEnvTwo cdocs e) (f + 1) (m + 1) (batchMid i1 coll)).1 := by
        rw [batchTake, batchTake, batch_call1_nil _ i1 coll f hwf1, batch_next_mid]
        cases getMoreStep (batchEnvTwo cdocs e) (f + 1) (batchMid i1 coll) with
        | none => rfl
        | some p => rfl
      rw [hswap, show m + 1 = cdocs.length + k from hck.symm,
        batchTake_from_mid cdocs e i1 coll f hwf2 k]
      simp
  | cons d q =>
    have hcall1 := batch_call1_cons (batchEnvTwo cdocs e) i1 d q coll f hwf1
    have hdocs : (⟨⟨⟨[], none, true⟩, false, 0⟩, coll, some i1, some q, 0⟩ : BatchCursor).documents
        = some q := rfl
    constructor
    · constructor
      · rw [show (d :: q).length = q.length + 1 by simp, batchTake, hcall1]
        have hdrain := batchTake_drain (batchEnvTwo cdocs e) (f + 1) q
          ⟨⟨⟨[], none, true⟩, false, 0⟩, coll, some i1, some q, 0⟩ 0 hdocs
        simp only [Nat.add_zero] at hdrain
        simp [hdrain, batchTake]
      · rw [show (d :: q).length = q.length + 1 by simp, batchTake, hcall1]
        have hdrain := batchTake_drain (batchEnvTwo cdocs e) (f + 1) q
          ⟨⟨⟨[], none, true⟩, false, 0⟩, coll, some i1, some q, 0⟩ 0 hdocs
        simp only [Nat.add_zero] at hdrain
        simp [hdrain, batchTake]
    · rw [show (d :: q).length + (cdocs.length + k) = (q.length + (cdocs.length + k)) + 1
        by simp; omega]
      rw [batchTake, hcall1]
      have hdrain := batchTake_drain (batchEnvTwo cdocs e) (f + 1) q
        ⟨⟨⟨[], none, true⟩, false, 0⟩, coll, some i1, some q, 0⟩ (cdocs.length + k) hdocs
      have hmid : ({ (⟨⟨⟨[], none, true⟩, false, 0⟩, coll, some i1, some q, 0⟩ : BatchCursor)
          with documents := some [] } : BatchCursor) = batchMid i1 coll := by
        simp [batchMid]
      rw [hmid] at hdrain
      simp [hdrain, batchTake_from_mid cdocs e i1 coll f hwf2 k]

/-- Second witness document for the pagination scenario. -/
def wDoc2 : BsonDoc := .cons [120] (.boolean true) .nil

/-- Witness for claim C4 with a one-document first batch and a
one-document second batch. -/
theorem claim_C4_witness :
    ((batchTake (batchEnvTwo [wDoc2] ⟨1, 2, []⟩) (0 + 1) ([wDoc] : List BsonDoc).length
          (batchInit 7 [wDoc] [99])).1
        = [wDoc].map (fun d => some (.ok d)) ∧
      (batchTake (batchEnvTwo [wDoc2] ⟨1, 2, []⟩) (0 + 1) ([wDoc] : List BsonDoc).length
          (batchInit 7 [wDoc] [99])).2.2 = []) ∧
    (batchTake (batchEnvTwo [wDoc2] ⟨1, 2, []⟩) (0 + 1)
          (([wDoc] : List BsonDoc).length + (([wDoc2] : List BsonDoc).length + 1))
          (batchInit 7 [wDoc] [99])).1
      = (([wDoc] ++ [wDoc2]).map fun d => some (.ok d)) ++ List.replicate 1 none :=
  claim_C4_batch_pagination [wDoc] [wDoc2] [99] 7 ⟨1, 2, []⟩ 0 1
    (by decide) (by decide) (by norm_num) (by norm_num)

/-! ## Claims about the Bsonc bridge -/

/-- Claim C3. For every document built from the supported value variants
(well-formed: genuine bytes, UTF-8 strings, NUL-free UTF-8 keys,
in-range machine integers, 12-byte ObjectIds, in-range lengths),
decoding the buffer produced by encoding it returns an equal document:
same key order, byte-equal ObjectIds, millisecond-exact DateTimes. -/
theorem claim_C3_roundtrip (d : BsonDoc) (h : wfD d = true) :
    (Bsonc.from_document d).bind Bsonc.as_document = .ok d :=
  bsonc_decode_encode d h

/-- Witness document for the round trip, exercising every supported
variant. -/
def wRoundDoc : BsonDoc :=
  .cons [95, 105, 100] (.objectId [0, 1, 2, 3, 4, 5, 6, 7, 8, 9, 10, 255])
  (.cons [100, 116] (.dateTime 1700000000000)
  (.cons [115] (.string [104, 105])
  (.cons [110] (.int32 (-5))
  (.cons [108] (.int64 (-6))
  (.cons [102] (.double 4614256656552045848)
  (.cons [98] (.boolean false)
  (.cons [122] .null
  (.cons [119] (.binary 0 [1, 2, 3])
  (.cons [97] (.array (.cons (.int32 1) (.cons (.string [120]) .nil)))
  (.cons [101] (.document (.cons [107] (.boolean true) .nil))
  .nil))))))))))

/-- Witness for claim C3 on a document using all supported variants. -/
theorem claim_C3_witness :
    wfD wRoundDoc = true ∧
    (Bsonc.from_document wRoundDoc).bind Bsonc.as_document = .ok wRoundDoc :=
  ⟨by decide, claim_C3_roundtrip wRoundDoc (by decide)⟩

/-- The invalid-UTF-8 document of the strict/lossy decoding claim: the
bytes 80 AE as a string field payload (the Rust test builds it with
from_utf8_unchecked). -/
def invalidUtf8Doc : BsonDoc := .cons [107, 101, 121] (.string [0x80, 0xAE]) .nil

/-- Claim C7. On a buffer embedding the bytes 80 AE as a string payload,
the strict decode fails with the invalid-UTF-8 decoding error while the
lossy decode succeeds, yielding one replacement character per invalid
byte; and the lossy decode never fails with the invalid-UTF-8 error on
any buffer. -/
theorem claim_C7_strict_vs_lossy :
    ((Bsonc.from_document invalidUtf8Doc).bind Bsonc.as_document
        = .error (.decoder .invalidUtf8)) ∧
    ((Bsonc.from_document invalidUtf8Doc).bind Bsonc.as_document_utf8_lossy
        = .ok (.cons [107, 101, 121] (.string (replChar ++ replChar)) .nil)) ∧
    (∀ b : Bsonc, b.as_document_utf8_lossy ≠ .error (.decoder .invalidUtf8)) :=
  ⟨rfl, rfl, as_document_utf8_lossy_never_invalidUtf8⟩

end MongoRust
